import Mathlib

/-!
# Verification of the chaos-chat acoustic link and session layer

Shallow embedding of `src/script.js` (classes `UltrasonicComm` and
`ChatManager`).  JS strings are modelled by their UTF-8 byte sequences
(`List Nat`, each element `< 256`), byte buffers by `List Nat`, and the
received bit stream by `List Nat` with elements in `{0, 1}` (the worklet
emits numeric bits).  JS `Map`s are modelled as insertion-ordered
association lists.  Sources of nondeterminism in the code
(`Math.random`-derived ids and keys, `Date.now()`) are passed as explicit
parameters.
-/

set_option maxRecDepth 10000

namespace ChaosChat

/-! ## Frame codec (`UltrasonicComm`, script.js:586-1291) -/

/-- The sync header, `this.packetHeader` (script.js:618): eight whole bytes,
each 0 or 1. -/
def packetHeader : List Nat := [1, 0, 1, 0, 1, 1, 0, 1]

/-- `this.maxPayloadLength` (script.js:619). -/
def maxPayloadLength : Nat := 32

/-- `UltrasonicComm.calculateCRC` (script.js:1233): XOR of all payload bytes,
masked to 8 bits. -/
def calculateCRC (data : List Nat) : Nat :=
  (data.foldl (fun crc b => crc ^^^ b) 0) &&& 0xFF

/-- `UltrasonicComm.encodePacket` (script.js:929) at the payload-byte level
(the JSON serialisation of the datagram happens upstream and yields the byte
list given here).  The JS function throws on an oversized payload; that is
modelled by `none`. -/
def encodePacket (payload : List Nat) : Option (List Nat) :=
  if payload.length > maxPayloadLength then none
  else some (packetHeader ++ [payload.length] ++ payload ++ [calculateCRC payload])

/-- The byte sequence built by a successful `encodePacket` (its `some` value). -/
def encBytes (payload : List Nat) : List Nat :=
  packetHeader ++ [payload.length] ++ payload ++ [calculateCRC payload]

/-- One byte expanded into its eight LSB-first bits (the inner loop of
`createBitStream`, script.js:967). -/
def byteToBits (b : Nat) : List Nat :=
  (List.range 8).map fun j => (b >>> j) &&& 1

/-- `UltrasonicComm.createBitStream` (script.js:961). -/
def createBitStream : List Nat → List Nat
  | [] => []
  | b :: rest => byteToBits b ++ createBitStream rest

/-- Reassemble one byte from eight LSB-first bits starting at bit index `i`
(the `byte |= bit << j` loops shared by `matchHeader`, script.js:1027, and
`extractPacket`, script.js:1047/1061). -/
def readByte (buf : List Nat) (i : Nat) : Nat :=
  (List.range 8).foldl (fun byte j => byte ||| (buf.getD (i + j) 0 <<< j)) 0

/-- `UltrasonicComm.matchHeader` (script.js:1022). -/
def matchHeader (buf : List Nat) (startIndex : Nat) : Bool :=
  (List.range packetHeader.length).all fun i =>
    readByte buf (startIndex + i * 8) == packetHeader.getD i 0

/-- `UltrasonicComm.extractPacket` (script.js:1039).  On success it returns
the payload together with the total packet length in bytes (the JS object
`{payload, length}`). -/
def extractPacket (buf : List Nat) (startIndex : Nat) : Option (List Nat × Nat) :=
  let headerLen := packetHeader.length * 8
  let lengthIndex := startIndex + headerLen
  if lengthIndex + 8 > buf.length then none
  else
    let payloadLength := readByte buf lengthIndex
    if payloadLength > maxPayloadLength then none
    else
      let numBytes := packetHeader.length + 1 + payloadLength + 1
      if startIndex + numBytes * 8 > buf.length then none
      else
        let packetBytes := (List.range numBytes).map fun i =>
          readByte buf (startIndex + i * 8)
        let payload := (packetBytes.drop (packetHeader.length + 1)).dropLast
        let receivedCRC := packetBytes.getD (numBytes - 1) 0
        if receivedCRC == calculateCRC payload then some (payload, numBytes) else none

/-- The sync-search loop of `tryDecodePacket` (script.js:1003): candidate
start offsets at 8-bit alignment, first match whose packet extracts wins.
The loop bound `i <= bitBuffer.length - packetHeader.length * 8` (with
`i += 8`) admits exactly the offsets `8 * k` for
`k ≤ (len - 64) / 8`; the caller guarantees `len ≥ 80`. -/
def findSync (buf : List Nat) : Option (Nat × List Nat × Nat) :=
  (List.range ((buf.length - packetHeader.length * 8) / 8 + 1)).findSome? fun k =>
    if matchHeader buf (8 * k) then
      (extractPacket buf (8 * k)).map fun p => (8 * k, p.1, p.2)
    else none

/-- `UltrasonicComm.tryDecodePacket` (script.js:999): given the bit buffer,
returns the emitted payloads (at most one per call) and the new buffer.  On a
successful extraction the consumed prefix is dropped (script.js:1009); with no
packet found, a buffer longer than 1000 bits is trimmed to its last 500 bits
(script.js:1016). -/
def tryDecodePacket (buf : List Nat) : List (List Nat) × List Nat :=
  if buf.length < (packetHeader.length + 2) * 8 then ([], buf)
  else
    match findSync buf with
    | some (i, payload, numBytes) => ([payload], buf.drop (i + numBytes * 8))
    | none =>
      if buf.length > 1000 then ([], buf.drop (buf.length - 500)) else ([], buf)

/-- `UltrasonicComm.processBit` (script.js:976) in the regime where bits
arrive at the nominal bit rate, so the inter-bit-gap buffer reset
(script.js:986, `timeDiff > expectedInterval * 2`) never fires.  The state is
(emitted payloads so far, bit buffer). -/
def processBit (st : List (List Nat) × List Nat) (bit : Nat) :
    List (List Nat) × List Nat :=
  let step := tryDecodePacket (st.2 ++ [bit])
  (st.1 ++ step.1, step.2)

/-- Feed a bit vector to the decode state machine one bit at a time, starting
from a given state. -/
def feedBitsFrom (st : List (List Nat) × List Nat) (bits : List Nat) :
    List (List Nat) × List Nat :=
  bits.foldl processBit st

/-- Feed a bit vector to a fresh decoder. -/
def feedBits (bits : List Nat) : List (List Nat) × List Nat :=
  feedBitsFrom ([], []) bits

/-- Flip the bit at position `idx` of a received bit vector (elements are 0
or 1): the single-bit transmission error considered by the checksum claim. -/
def flipBit (bits : List Nat) (idx : Nat) : List Nat :=
  bits.set idx (1 - bits.getD idx 0)

/-! ## Discovery layer (`UltrasonicComm` presence table, script.js:1121-1222) -/

/-- An entry of `this.discoveredUsers`: the spread heartbeat data plus
`lastSeen` (script.js:1124). -/
structure DiscoveredUser where
  userId : List Nat
  username : List Nat
  timestamp : Nat
  lastSeen : Nat
  deriving DecidableEq, Repr

/-- A received heartbeat / discovery datagram (script.js:1156). -/
structure HeartbeatData where
  userId : List Nat
  username : List Nat
  timestamp : Nat
  deriving DecidableEq, Repr

/-- `Map.set` of an insertion-ordered JS `Map` modelled as an association
list: replace in place if the key is present, else append. -/
def mapSet {β : Type} (l : List (List Nat × β)) (key : List Nat) (v : β) :
    List (List Nat × β) :=
  if l.any (fun p => p.1 == key) then
    l.map fun p => if p.1 == key then (key, v) else p
  else l ++ [(key, v)]

/-- The discovery-layer state relevant to the presence claims:
`this.discoveredUsers` and `this.myUserId` (script.js:627-628). -/
structure DiscoveryState where
  discoveredUsers : List (List Nat × DiscoveredUser)
  myUserId : List Nat
  deriving DecidableEq, Repr

/-- `UltrasonicComm.handleHeartbeat` (script.js:1121).  `now` stands for
`Date.now()`.  The second component is the list of `onUserDetected`
callback invocations. -/
def handleHeartbeat (st : DiscoveryState) (d : HeartbeatData) (now : Nat) :
    DiscoveryState × List (List Nat × HeartbeatData) :=
  if d.userId == st.myUserId then (st, [])
  else
    let entry : DiscoveredUser :=
      { userId := d.userId, username := d.username,
        timestamp := d.timestamp, lastSeen := now }
    ({ st with discoveredUsers := mapSet st.discoveredUsers d.userId entry },
     [(d.userId, d)])

/-- `UltrasonicComm.handleDiscovery` (script.js:1136) just delegates to
`handleHeartbeat`. -/
def handleDiscovery (st : DiscoveryState) (d : HeartbeatData) (now : Nat) :
    DiscoveryState × List (List Nat × HeartbeatData) :=
  handleHeartbeat st d now

/-- `UltrasonicComm.cleanupExpiredUsers` (script.js:1211): delete every entry
with `now - lastSeen > 10000`.  (In JS a `lastSeen` in the future makes the
difference negative, hence not `> 10000`; truncated `Nat` subtraction gives 0,
hence also not `> 10000`.) -/
def cleanupExpiredUsers (st : DiscoveryState) (now : Nat) : DiscoveryState :=
  { st with discoveredUsers :=
      st.discoveredUsers.filter fun p => !(now - p.2.lastSeen > 10000) }

/-- `UltrasonicComm.getDiscoveredUsers`: `Array.from(this.discoveredUsers.values())`. -/
def getDiscoveredUsers (st : DiscoveryState) : List DiscoveredUser :=
  st.discoveredUsers.map fun p => p.2

/-! ## Obfuscation cipher (`ChatManager.encryptMessage` / `decryptMessage`,
script.js:1757-1779)

JS strings are modelled by their UTF-8 byte sequences, so `TextEncoder` /
`TextDecoder` are identities here; the hexadecimal ciphertext string is the
byte sequence of its ASCII characters. -/

/-- ASCII codes of the lowercase hexadecimal digits `0..9a..f` (the alphabet
of `b.toString(16)`). -/
def hexDigits : List Nat :=
  [48, 49, 50, 51, 52, 53, 54, 55, 56, 57, 97, 98, 99, 100, 101, 102]

/-- `b.toString(16).padStart(2, '0')` for a byte `b < 256`: exactly two
lowercase hex digits, as ASCII codes (script.js:1766). -/
def byteToHex (b : Nat) : List Nat :=
  [hexDigits.getD (b / 16) 48, hexDigits.getD (b % 16) 48]

/-- The XOR-with-cycled-key loop shared by both directions
(script.js:1762-1764 and 1774-1776); `i` is the running index. -/
def xorCycle (k : List Nat) : Nat → List Nat → List Nat
  | _, [] => []
  | i, b :: rest => (b ^^^ k.getD (i % k.length) 0) :: xorCycle k (i + 1) rest

/-- `ChatManager.encryptMessage` (script.js:1757): XOR the message bytes with
the key bytes cycled, render as a lowercase hexadecimal ASCII string. -/
def encryptMessage (m k : List Nat) : List Nat :=
  ((xorCycle k 0 m).map byteToHex).flatten

/-- The value of one hex digit character; `0` for characters outside the
hexadecimal alphabet (`parseInt` accepts both cases). -/
def hexVal (c : Nat) : Nat :=
  if 48 ≤ c ∧ c ≤ 57 then c - 48
  else if 97 ≤ c ∧ c ≤ 102 then c - 87
  else if 65 ≤ c ∧ c ≤ 70 then c - 55
  else 0

/-- Whether a character is a hexadecimal digit. -/
def isHexDigit (c : Nat) : Bool :=
  (48 ≤ c ∧ c ≤ 57) ∨ (97 ≤ c ∧ c ≤ 102) ∨ (65 ≤ c ∧ c ≤ 70)

/-- `parseInt(h, 16)` for a two-character chunk `h`, as stored into a
`Uint8Array` (script.js:1770): an invalid first digit gives `NaN`, which the
typed array stores as 0; a valid first digit followed by an invalid second
digit parses only the first digit. -/
def hexPairVal (c1 c2 : Nat) : Nat :=
  if isHexDigit c1 then
    if isHexDigit c2 then 16 * hexVal c1 + hexVal c2 else hexVal c1
  else 0

/-- `encryptedHex.match(/.{2}/g)`: the consecutive two-character chunks, a
trailing odd character being dropped. -/
def hexPairs : List Nat → List (Nat × Nat)
  | c1 :: c2 :: rest => (c1, c2) :: hexPairs rest
  | _ => []

/-- The XOR-decode loop of `decryptMessage` over the parsed chunks. -/
def unhexCycle (k : List Nat) : Nat → List (Nat × Nat) → List Nat
  | _, [] => []
  | i, (c1, c2) :: rest =>
      (hexPairVal c1 c2 ^^^ k.getD (i % k.length) 0) :: unhexCycle k (i + 1) rest

/-- `ChatManager.decryptMessage` (script.js:1769).  When the ciphertext has
fewer than two characters, `match(/.{2}/g)` returns `null` and the call to
`.map` throws a `TypeError`; modelled by `none`. -/
def decryptMessage (s : List Nat) (k : List Nat) : Option (List Nat) :=
  if s.length < 2 then none
  else some (unhexCycle k 0 (hexPairs s))

/-! ## Session layer (`ChatManager`, script.js:1293-1837) -/

/-- A room object (script.js:1382). -/
structure Room where
  id : List Nat
  name : List Nat
  isPrivate : Bool
  members : List (List Nat)
  createdBy : List Nat
  createdAt : Nat
  /-- `null` is modelled by `none`; the JS empty string, which is also falsy,
  is `some []`. -/
  encryptionKey : Option (List Nat)
  deriving DecidableEq, Repr

/-- An entry of `this.connectedUsers` (script.js:1358). -/
structure ConnectedUser where
  userId : List Nat
  username : List Nat
  lastSeen : Nat
  isOnline : Bool
  deriving DecidableEq, Repr

/-- A message object as stored in `this.messageHistory` and handed to
`onMessageReceived`.  System messages (script.js:1620) carry no room or
sender, hence the `Option` fields. -/
structure ChatHistoryEntry where
  messageId : List Nat
  msgType : List Nat
  roomId : Option (List Nat)
  fromUserId : Option (List Nat)
  fromUsername : Option (List Nat)
  content : List Nat
  isEncrypted : Bool
  isOwn : Bool
  isSystem : Bool
  timestamp : Nat
  deriving DecidableEq, Repr

/-- An incoming `chat` datagram (the fields built in script.js:1543). -/
structure ChatData where
  messageId : List Nat
  roomId : List Nat
  fromUserId : List Nat
  fromUsername : List Nat
  content : List Nat
  isEncrypted : Bool
  timestamp : Nat
  deriving DecidableEq, Repr

/-- An outgoing datagram passed to `ultrasonicComm.transmitData`; only the
variants the claims are about. -/
inductive Datagram where
  | privateKey (roomId : List Nat) (encryptionKey : List Nat)
      (fromUserId : List Nat) (timestamp : Nat)
  | chat (d : ChatData)
  deriving DecidableEq, Repr

/-- The `ChatManager` fields read or written by the operations below
(script.js:1294-1307). -/
structure ChatState where
  currentRoom : Option Room
  rooms : List (List Nat × Room)
  isPrivateMode : Bool
  encryptionKey : Option (List Nat)
  messageHistory : List ChatHistoryEntry
  connectedUsers : List (List Nat × ConnectedUser)
  myUserId : List Nat
  myUsername : List Nat
  deriving DecidableEq, Repr

/-- `this.maxHistorySize` (script.js:1303). -/
def maxHistorySize : Nat := 100

/-- `ChatManager.addMessage` (script.js:1609): append, then keep the last
`maxHistorySize` entries. -/
def addMessage (st : ChatState) (msg : ChatHistoryEntry) : ChatState :=
  let h := st.messageHistory ++ [msg]
  { st with messageHistory :=
      if h.length > maxHistorySize then h.drop (h.length - maxHistorySize) else h }

/-- UTF-8 bytes of the system text `聊天室已切换为私密模式`
("room switched to private mode", script.js:1653). -/
def sysTextToPrivate : List Nat :=
  [232, 129, 138, 229, 164, 169, 229, 174, 164, 229, 183, 178, 229, 136, 135,
   230, 141, 162, 228, 184, 186, 231, 167, 129, 229, 175, 134, 230, 168, 161,
   229, 188, 143]

/-- UTF-8 bytes of the system text `聊天室已切换为公开模式`
("room switched to public mode", script.js:1657). -/
def sysTextToPublic : List Nat :=
  [232, 129, 138, 229, 164, 169, 229, 174, 164, 229, 183, 178, 229, 136, 135,
   230, 141, 162, 228, 184, 186, 229, 133, 172, 229, 188, 128, 230, 168, 161,
   229, 188, 143]

/-- UTF-8 bytes of `[加密消息 - 解密失败]` ("encrypted message - decryption
failed", script.js:1589). -/
def decryptFailedText : List Nat :=
  [91, 229, 138, 160, 229, 175, 134, 230, 182, 136, 230, 129, 175, 32, 45, 32,
   232, 167, 163, 229, 175, 134, 229, 164, 177, 232, 180, 165, 93]

/-- UTF-8 bytes of `[加密消息 - 无解密密钥]` ("encrypted message - no
decryption key", script.js:1592). -/
def noKeyText : List Nat :=
  [91, 229, 138, 160, 229, 175, 134, 230, 182, 136, 230, 129, 175, 32, 45, 32,
   230, 151, 160, 232, 167, 163, 229, 175, 134, 229, 175, 134, 233, 146, 165, 93]

/-- The system message object built by `ChatManager.addSystemMessage`
(script.js:1619); `sysId` stands for the `generateMessageId()` call. -/
def systemMessage (content : List Nat) (sysId : List Nat) (now : Nat) :
    ChatHistoryEntry :=
  { messageId := sysId, msgType := [115, 121, 115, 116, 101, 109],
    roomId := none, fromUserId := none, fromUsername := none,
    content := content, isEncrypted := false, isOwn := false,
    isSystem := true, timestamp := now }

/-- `ChatManager.addSystemMessage` (script.js:1619): build the system message,
add it to history, deliver it to `onMessageReceived`.  Returns the new state
and the UI deliveries. -/
def addSystemMessage (st : ChatState) (content : List Nat) (sysId : List Nat)
    (now : Nat) : ChatState × List ChatHistoryEntry :=
  let msg := systemMessage content sysId now
  (addMessage st msg, [msg])

/-- JS truthiness of `this.encryptionKey`: `null` and the empty string are
falsy. -/
def keyTruthy : Option (List Nat) → Bool
  | none => false
  | some k => !k.isEmpty

/-- The result of `ChatManager.togglePrivacyMode`. -/
structure ToggleResult where
  result : Bool
  state : ChatState
  transmitted : List Datagram
  delivered : List ChatHistoryEntry
  deriving DecidableEq, Repr

/-- `ChatManager.togglePrivacyMode` (script.js:1637).  `freshKey` stands for
the `generateEncryptionKey()` call, `sysId` for the system message's
`generateMessageId()`, and `now` for `Date.now()`.  The JS code mutates the
room object held by both `this.currentRoom` and `this.rooms`
(script.js:1392-1393 alias them), so the update is applied to both here.
`distributeEncryptionKey` (script.js:1668) transmits only when the room and a
truthy key exist. -/
def togglePrivacyMode (st : ChatState) (freshKey : List Nat) (sysId : List Nat)
    (now : Nat) : ToggleResult :=
  match st.currentRoom with
  | none => { result := false, state := st, transmitted := [], delivered := [] }
  | some room =>
    let newPriv := !st.isPrivateMode
    if newPriv then
      let room' := { room with isPrivate := true, encryptionKey := some freshKey }
      let st1 : ChatState :=
        { st with
          isPrivateMode := true, currentRoom := some room',
          rooms := st.rooms.map (fun p => if p.1 == room.id then (p.1, room') else p),
          encryptionKey := some freshKey }
      let tx := if keyTruthy (some freshKey) then
          [Datagram.privateKey room'.id freshKey st.myUserId now] else []
      let step := addSystemMessage st1 sysTextToPrivate sysId now
      { result := true, state := step.1, transmitted := tx, delivered := step.2 }
    else
      let room' := { room with isPrivate := false, encryptionKey := none }
      let st1 : ChatState :=
        { st with
          isPrivateMode := false, currentRoom := some room',
          rooms := st.rooms.map (fun p => if p.1 == room.id then (p.1, room') else p),
          encryptionKey := none }
      let step := addSystemMessage st1 sysTextToPublic sysId now
      { result := false, state := step.1, transmitted := [], delivered := step.2 }

/-- The result of a successful `ChatManager.sendMessage`. -/
structure SendResult where
  state : ChatState
  transmitted : Datagram
  wire : ChatData
  deriving DecidableEq, Repr

/-- `ChatManager.sendMessage` (script.js:1531) for a text message.  `content`
is the message string's bytes, `msgId` the `generateMessageId()` value, `now`
the `Date.now()` value.  The JS function throws without an active room
(`none`).  The wire datagram carries `isEncrypted = this.isPrivateMode`, while
the encryption itself additionally requires a truthy key (script.js:1539);
the local history copy keeps the cleartext (script.js:1558). -/
def sendMessage (st : ChatState) (content : List Nat) (msgId : List Nat)
    (now : Nat) : Option SendResult :=
  match st.currentRoom with
  | none => none
  | some room =>
    let messageContent :=
      if st.isPrivateMode && keyTruthy st.encryptionKey then
        encryptMessage content (st.encryptionKey.getD [])
      else content
    let wire : ChatData :=
      { messageId := msgId, roomId := room.id, fromUserId := st.myUserId,
        fromUsername := st.myUsername, content := messageContent,
        isEncrypted := st.isPrivateMode, timestamp := now }
    let localMsg : ChatHistoryEntry :=
      { messageId := msgId, msgType := [99, 104, 97, 116],
        roomId := some room.id, fromUserId := some st.myUserId,
        fromUsername := some st.myUsername, content := content,
        isEncrypted := st.isPrivateMode, isOwn := true, timestamp := now,
        isSystem := false }
    some { state := addMessage st localMsg, transmitted := Datagram.chat wire,
           wire := wire }

/-- `ChatManager.handleChatMessage` (script.js:1570).  Returns the new state
and the `onMessageReceived` deliveries. -/
def handleChatMessage (st : ChatState) (d : ChatData) :
    ChatState × List ChatHistoryEntry :=
  match st.currentRoom with
  | none => (st, [])
  | some room =>
    if d.roomId != room.id then (st, [])
    else if d.fromUserId == st.myUserId then (st, [])
    else
      let content :=
        if d.isEncrypted && keyTruthy st.encryptionKey then
          match decryptMessage d.content (st.encryptionKey.getD []) with
          | some m => m
          | none => decryptFailedText
        else if d.isEncrypted && !keyTruthy st.encryptionKey then noKeyText
        else d.content
      let msg : ChatHistoryEntry :=
        { messageId := d.messageId, msgType := [99, 104, 97, 116],
          roomId := some d.roomId, fromUserId := some d.fromUserId,
          fromUsername := some d.fromUsername, content := content,
          isEncrypted := d.isEncrypted, isOwn := false, isSystem := false,
          timestamp := d.timestamp }
      (addMessage st msg, [msg])

/-- `ChatManager.cleanupOfflineUsers` (script.js:1810): entries with
`now - lastSeen > 30000` are marked offline (`isOnline := false`) and reported
through `onUserLeft`; nothing is deleted.  Returns the new state and the
`onUserLeft` invocations. -/
def cleanupOfflineUsers (st : ChatState) (now : Nat) :
    ChatState × List (List Nat × ConnectedUser) :=
  ({ st with connectedUsers := st.connectedUsers.map fun p =>
      if now - p.2.lastSeen > 30000 then (p.1, { p.2 with isOnline := false })
      else p },
   st.connectedUsers.filterMap fun p =>
     if now - p.2.lastSeen > 30000 then some (p.1, { p.2 with isOnline := false })
     else none)

/-- `ChatManager.getConnectedUsers` (script.js:1805). -/
def getConnectedUsers (st : ChatState) : List ConnectedUser :=
  st.connectedUsers.map fun p => p.2

/-- Bytes `k, k+1, …, k+7` of the byte sequence `B` spell the sync header.
A `matchHeader` at bit offset `8 * k` succeeds exactly on such `k` (no
out-of-range position qualifies, because the header ends in a nonzero
byte while `getD` defaults to 0). -/
def isHeaderAt (B : List Nat) (k : Nat) : Prop :=
  ∀ i, i < 8 → B.getD (k + i) 0 = packetHeader.getD i 0

instance (B : List Nat) (k : Nat) : Decidable (isHeaderAt B k) := by
  unfold isHeaderAt; infer_instance

/-! ## Basic lemmas about the bit stream -/

theorem packetHeader_length : packetHeader.length = 8 := rfl

theorem length_byteToBits (b : Nat) : (byteToBits b).length = 8 := by
  simp [byteToBits]

theorem createBitStream_append (a b : List Nat) :
    createBitStream (a ++ b) = createBitStream a ++ createBitStream b := by
  induction a with
  | nil => rfl
  | cons x xs ih => simp [createBitStream, ih]

theorem length_createBitStream (B : List Nat) :
    (createBitStream B).length = 8 * B.length := by
  induction B with
  | nil => rfl
  | cons b rest ih =>
      simp [createBitStream, length_byteToBits, ih]; ring

/-- `readByte` reads only the eight bits at offsets `i .. i+7`. -/
theorem readByte_congr {buf1 buf2 : List Nat} {i1 i2 : Nat}
    (h : ∀ j, j < 8 → buf1.getD (i1 + j) 0 = buf2.getD (i2 + j) 0) :
    readByte buf1 i1 = readByte buf2 i2 := by
  unfold readByte
  rw [show List.range 8 = [0, 1, 2, 3, 4, 5, 6, 7] from rfl]
  simp only [List.foldl_cons, List.foldl_nil]
  rw [h 0 (by norm_num), h 1 (by norm_num), h 2 (by norm_num), h 3 (by norm_num),
    h 4 (by norm_num), h 5 (by norm_num), h 6 (by norm_num), h 7 (by norm_num)]

theorem readByte_byteToBits : ∀ b < 256, readByte (byteToBits b) 0 = b := by decide

theorem readByte_byteToBits_append (b : Nat) (hb : b < 256) (t : List Nat) :
    readByte (byteToBits b ++ t) 0 = b := by
  have h : readByte (byteToBits b ++ t) 0 = readByte (byteToBits b) 0 := by
    refine readByte_congr fun j hj => ?_
    rw [List.getD_append]
    rw [length_byteToBits]; omega
  rw [h, readByte_byteToBits b hb]

/-- Reading byte `k` of a bit stream recovers byte `k` of the byte list. -/
theorem readByte_stream (B : List Nat) (hB : ∀ b ∈ B, b < 256) :
    ∀ k, k < B.length → readByte (createBitStream B) (8 * k) = B.getD k 0 := by
  induction B with
  | nil => intro k hk; simp at hk
  | cons b rest ih =>
      intro k hk
      match k with
      | 0 =>
          simpa [createBitStream] using
            readByte_byteToBits_append b (hB b (by simp)) (createBitStream rest)
      | k + 1 =>
          have hrest : ∀ x ∈ rest, x < 256 := fun x hx => hB x (by simp [hx])
          have hk' : k < rest.length := by simpa using hk
          have h : readByte (createBitStream (b :: rest)) (8 * (k + 1))
              = readByte (createBitStream rest) (8 * k) := by
            refine readByte_congr fun j hj => ?_
            show (byteToBits b ++ createBitStream rest).getD (8 * (k + 1) + j) 0 = _
            rw [List.getD_append_right _ _ _ _ (by rw [length_byteToBits]; omega)]
            rw [length_byteToBits]
            congr 1
            omega
          rw [h, ih hrest k hk']
          simp

/-- `readByte` inside a long enough prefix agrees with `readByte` of the
whole buffer. -/
theorem readByte_take {L : List Nat} {i n : Nat} (h : i + 8 ≤ n) :
    readByte (L.take n) i = readByte L i := by
  refine readByte_congr fun j hj => ?_
  rw [List.getD_eq_getElem?_getD, List.getD_eq_getElem?_getD, List.getElem?_take_of_lt (by omega)]

/-- `matchHeader` on a (long enough) prefix of a bit stream decides
`isHeaderAt` of the underlying byte list. -/
theorem matchHeader_stream_take {B : List Nat} (hB : ∀ b ∈ B, b < 256) {k m : Nat}
    (hm : 8 * k + 64 ≤ m) (hmB : m ≤ 8 * B.length) :
    (matchHeader ((createBitStream B).take m) (8 * k) = true) ↔ isHeaderAt B k := by
  unfold matchHeader isHeaderAt
  rw [List.all_eq_true]
  constructor
  · intro h i hi
    have hmem : i ∈ List.range packetHeader.length := by
      simp [packetHeader_length]; omega
    have := h i hmem
    rw [beq_iff_eq] at this
    rw [← this]
    have h1 : readByte ((createBitStream B).take m) (8 * k + i * 8)
        = readByte (createBitStream B) (8 * k + i * 8) := readByte_take (by omega)
    have h2 : 8 * k + i * 8 = 8 * (k + i) := by ring
    rw [h1, h2, readByte_stream B hB (k + i) (by omega)]
  · intro h i hmem
    rw [List.mem_range, packetHeader_length] at hmem
    rw [beq_iff_eq]
    have h1 : readByte ((createBitStream B).take m) (8 * k + i * 8)
        = readByte (createBitStream B) (8 * k + i * 8) := readByte_take (by omega)
    have h2 : 8 * k + i * 8 = 8 * (k + i) := by ring
    rw [h1, h2, readByte_stream B hB (k + i) (by omega)]
    exact h i hmem

/-- `isHeaderAt` forces the whole header window to lie inside the list. -/
theorem isHeaderAt_bound {B : List Nat} {k : Nat} (h : isHeaderAt B k) :
    k + 8 ≤ B.length := by
  by_contra hlt
  have h7 := h 7 (by norm_num)
  rcases Nat.lt_or_ge (k + 7) B.length with hin | hout
  · omega
  · rw [List.getD_eq_default _ _ hout] at h7
    simp [packetHeader] at h7

/-- The header sits at the start of an encoded packet. -/
theorem isHeaderAt_encBytes (J p : List Nat) :
    isHeaderAt (J ++ encBytes p) J.length := by
  intro i hi
  rw [show J.length + i = J.length + i from rfl,
    List.getD_append_right _ _ _ _ (by omega)]
  have : J.length + i - J.length = i := by omega
  rw [this]
  unfold encBytes
  rw [List.append_assoc, List.append_assoc]
  rw [List.getD_append _ _ _ _ (by rw [packetHeader_length]; omega)]

/-- Mapping `getD` over `range length` reproduces the list. -/
theorem map_range_getD (l : List Nat) : (List.range l.length).map (fun i => l.getD i 0) = l := by
  apply List.ext_getElem
  · simp
  · intro i h1 h2
    simp [List.getD_eq_getElem?_getD, List.getElem?_eq_getElem h2]

/-- Evaluation of `extractPacket` at the start of a complete packet lying at
byte offset `J.length` of the stream, with nothing after it: the packet is
accepted exactly when its trailing byte is the payload's XOR checksum. -/
theorem extractPacket_stream_eval (J q : List Nat) (c : Nat)
    (hq : q.length ≤ 32) (hJ : ∀ b ∈ J, b < 256) (hqb : ∀ b ∈ q, b < 256)
    (hc : c < 256) :
    extractPacket (createBitStream (J ++ (packetHeader ++ [q.length] ++ q ++ [c])))
      (8 * J.length)
    = if c = calculateCRC q then some (q, 10 + q.length) else none := by
  have hR : packetHeader ++ [q.length] ++ q ++ [c]
      = 1 :: 0 :: 1 :: 0 :: 1 :: 1 :: 0 :: 1 :: q.length :: (q ++ [c]) := by
    simp [packetHeader]
  set R : List Nat := packetHeader ++ [q.length] ++ q ++ [c]
  set B : List Nat := J ++ R with hB
  have hRlen : R.length = 10 + q.length := by
    rw [hR]; simp; omega
  have hBlen : B.length = J.length + (10 + q.length) := by
    rw [hB, List.length_append, hRlen]
  have hBbytes : ∀ b ∈ B, b < 256 := by
    intro b hb
    rw [hB] at hb
    rcases List.mem_append.mp hb with h | h
    · exact hJ b h
    · rw [hR] at h
      simp only [List.mem_cons] at h
      rcases h with h | h | h | h | h | h | h | h | h | h
      all_goals first
        | omega
        | (rcases List.mem_append.mp h with h' | h'
           · exact hqb b h'
           · simp at h'; omega)
  have hbuflen : (createBitStream B).length = 8 * B.length := length_createBitStream B
  have hread : ∀ i, i < 10 + q.length →
      readByte (createBitStream B) (8 * J.length + i * 8) = R.getD i 0 := by
    intro i hi
    have h8 : 8 * J.length + i * 8 = 8 * (J.length + i) := by ring
    rw [h8, readByte_stream B hBbytes _ (by omega)]
    rw [hB, List.getD_append_right _ _ _ _ (by omega)]
    congr 1
    omega
  have hlen8 : R.getD 8 0 = q.length := by
    rw [hR]; rfl
  have hcrc : R.getD (9 + q.length) 0 = c := by
    show (packetHeader ++ [q.length] ++ q ++ [c]).getD (9 + q.length) 0 = c
    rw [List.getD_append_right _ _ _ _
      (by simp only [List.length_append, packetHeader_length, List.length_cons,
            List.length_nil]; omega)]
    have h0 : 9 + q.length - (packetHeader ++ [q.length] ++ q).length = 0 := by
      simp only [List.length_append, packetHeader_length, List.length_cons,
        List.length_nil]
      omega
    rw [h0]
    rfl
  have hdrop : R.drop 9 = q ++ [c] := by
    rw [hR]; rfl
  simp only [extractPacket, packetHeader_length]
  rw [hbuflen, hBlen]
  rw [if_neg (by omega)]
  have h64 : 8 * J.length + 8 * 8 = 8 * J.length + 8 * 8 := rfl
  rw [show (8 * J.length + 8 * 8 : Nat) = 8 * J.length + 8 * 8 from rfl]
  rw [show readByte (createBitStream B) (8 * J.length + 8 * 8) = q.length from hread 8 (by omega)]
  rw [if_neg (by simp [maxPayloadLength]; omega)]
  rw [if_neg (by omega)]
  have hmap : (List.range (8 + 1 + q.length + 1)).map
      (fun i => readByte (createBitStream B) (8 * J.length + i * 8)) = R := by
    have hcong : (List.range (8 + 1 + q.length + 1)).map
        (fun i => readByte (createBitStream B) (8 * J.length + i * 8))
        = (List.range (8 + 1 + q.length + 1)).map (fun i => R.getD i 0) := by
      apply List.map_congr_left
      intro i hi
      rw [List.mem_range] at hi
      exact hread i (by omega)
    rw [hcong, show (8 + 1 + q.length + 1 : Nat) = R.length from by omega,
      map_range_getD]
  rw [hmap]
  have hpayload : (R.drop (8 + 1)).dropLast = q := by
    rw [show (8 + 1 : Nat) = 9 from rfl, hdrop]
    simp
  rw [hpayload]
  rw [show R.getD (8 + 1 + q.length + 1 - 1) 0 = c from by
    rw [show (8 + 1 + q.length + 1 - 1 : Nat) = 9 + q.length from by omega]; exact hcrc]
  by_cases hcc : c = calculateCRC q
  · rw [if_pos (show (c == calculateCRC q) = true from by simp [hcc]), if_pos hcc,
      show (8 + 1 + q.length + 1 : Nat) = 10 + q.length from by omega]
  · rw [if_neg (show ¬(c == calculateCRC q) = true from by simp [hcc]), if_neg hcc]

theorem calculateCRC_lt (l : List Nat) : calculateCRC l < 256 := by
  have : calculateCRC l ≤ 255 := Nat.and_le_right
  omega

/-- All bytes of a junk-prefix-plus-packet byte sequence are bytes. -/
theorem encShape_bytes_lt {J q : List Nat} {c : Nat} (hq : q.length ≤ 32)
    (hJ : ∀ b ∈ J, b < 256) (hqb : ∀ b ∈ q, b < 256) (hc : c < 256) :
    ∀ b ∈ J ++ (packetHeader ++ [q.length] ++ q ++ [c]), b < 256 := by
  intro b hb
  rcases List.mem_append.mp hb with h | h
  · exact hJ b h
  · rcases List.mem_append.mp h with h' | h'
    · rcases List.mem_append.mp h' with h'' | h''
      · rcases List.mem_append.mp h'' with h3 | h3
        · simp [packetHeader] at h3; omega
        · simp at h3; omega
      · exact hqb b h''
    · simp at h'; omega

theorem encShape_length (J q : List Nat) (c : Nat) :
    (J ++ (packetHeader ++ [q.length] ++ q ++ [c])).length
      = J.length + (10 + q.length) := by
  simp [packetHeader_length]
  omega

/-- Byte 8 of a packet (right after the header) is the length byte. -/
theorem encShape_getD8 (q : List Nat) (c : Nat) :
    (packetHeader ++ [q.length] ++ q ++ [c]).getD 8 0 = q.length := by
  have hR : packetHeader ++ [q.length] ++ q ++ [c]
      = 1 :: 0 :: 1 :: 0 :: 1 :: 1 :: 0 :: 1 :: q.length :: (q ++ [c]) := by
    simp [packetHeader]
  rw [hR]; rfl

/-- `extractPacket` at the true packet offset fails while the packet is still
incomplete (the buffer holds a strict prefix of the full stream): either the
length byte is not yet available, or the total-size check fails. -/
theorem extractPacket_take_none (J q : List Nat) (c m : Nat)
    (hq : q.length ≤ 32) (hJ : ∀ b ∈ J, b < 256) (hqb : ∀ b ∈ q, b < 256)
    (hc : c < 256) (hm : m < 8 * (J.length + (10 + q.length))) :
    extractPacket
      ((createBitStream (J ++ (packetHeader ++ [q.length] ++ q ++ [c]))).take m)
      (8 * J.length) = none := by
  set B : List Nat := J ++ (packetHeader ++ [q.length] ++ q ++ [c]) with hB
  have hBlen : B.length = J.length + (10 + q.length) := encShape_length J q c
  have hbuflen : ((createBitStream B).take m).length = m := by
    rw [List.length_take, length_createBitStream, hBlen]
    omega
  simp only [extractPacket, packetHeader_length]
  rw [hbuflen]
  by_cases h1 : 8 * J.length + 8 * 8 + 8 > m
  · rw [if_pos h1]
  · rw [if_neg h1]
    push_neg at h1
    have hBbytes : ∀ b ∈ B, b < 256 := encShape_bytes_lt hq hJ hqb hc
    have hpl : readByte ((createBitStream B).take m) (8 * J.length + 8 * 8)
        = q.length := by
      rw [readByte_take (by omega)]
      have h8 : 8 * J.length + 8 * 8 = 8 * (J.length + 8) := by ring
      rw [h8, readByte_stream B hBbytes _ (by omega)]
      rw [hB, List.getD_append_right _ _ _ _ (by omega)]
      have h0 : J.length + 8 - J.length = 8 := by omega
      rw [h0, encShape_getD8]
    rw [hpl]
    rw [if_neg (by simp only [maxPayloadLength]; omega)]
    rw [if_pos (by omega)]

/-- If `f` is `none` below `K` and `some v` at `K < N`, the scan over
`range N` returns `some v`. -/
theorem findSome?_range_first {β : Type} {f : Nat → Option β} {N K : Nat} {v : β}
    (hK : K < N) (hnone : ∀ k, k < K → f k = none) (hsome : f K = some v) :
    (List.range N).findSome? f = some v := by
  have hN : N = K + (N - K) := by omega
  rw [hN, List.range_add, List.findSome?_append]
  have h1 : (List.range K).findSome? f = none := by
    rw [List.findSome?_eq_none]
    intro x hx
    exact hnone x (List.mem_range.mp hx)
  rw [h1]
  have h2 : N - K = 1 + (N - K - 1) := by omega
  rw [h2, List.range_add, List.map_append, List.findSome?_append]
  rw [show List.range 1 = [0] from rfl]
  simp only [List.map_cons, List.map_nil, List.findSome?_cons, Nat.add_zero, hsome]
  rfl

theorem encBytes_def (p : List Nat) :
    encBytes p = packetHeader ++ [p.length] ++ p ++ [calculateCRC p] := rfl

/-- While the (junk ++ packet) stream is still incomplete, the sync search
finds nothing: offsets other than the true packet start fail the header
comparison, and the true start fails `extractPacket` for lack of bits. -/
theorem findSync_take_none (J p : List Nat) (m : Nat)
    (hp : p.length ≤ 32) (hJ : ∀ b ∈ J, b < 256) (hpb : ∀ b ∈ p, b < 256)
    (hsync : ∀ k, k < (J ++ encBytes p).length → k ≠ J.length →
      ¬ isHeaderAt (J ++ encBytes p) k)
    (hm80 : 80 ≤ m) (hm : m < 8 * (J.length + (10 + p.length))) :
    findSync ((createBitStream (J ++ encBytes p)).take m) = none := by
  have hBlen : (J ++ encBytes p).length = J.length + (10 + p.length) := by
    rw [encBytes_def]; exact encShape_length J p _
  have hBbytes : ∀ b ∈ J ++ encBytes p, b < 256 := by
    rw [encBytes_def]; exact encShape_bytes_lt hp hJ hpb (calculateCRC_lt p)
  have hbuflen : ((createBitStream (J ++ encBytes p)).take m).length = m := by
    rw [List.length_take, length_createBitStream, hBlen]
    omega
  unfold findSync
  rw [hbuflen, packetHeader_length, List.findSome?_eq_none]
  intro k hkmem
  rw [List.mem_range] at hkmem
  have h64 : 8 * k + 64 ≤ m := by
    have hk' : k ≤ (m - 8 * 8) / 8 := by omega
    have := (Nat.le_div_iff_mul_le (by norm_num : 0 < (8 : Nat))).mp hk'
    omega
  have hmB : m ≤ 8 * (J ++ encBytes p).length := by rw [hBlen]; omega
  cases hmh : matchHeader ((createBitStream (J ++ encBytes p)).take m) (8 * k) with
  | false => rw [if_neg (by simp)]
  | true =>
      have hhead : isHeaderAt (J ++ encBytes p) k :=
        (matchHeader_stream_take hBbytes h64 hmB).mp hmh
      have hbound := isHeaderAt_bound hhead
      have hkJ : k = J.length := by
        by_contra hne
        exact hsync k (by omega) hne hhead
      subst hkJ
      rw [if_pos (show (true : Bool) = true from rfl)]
      have hext : extractPacket ((createBitStream (J ++ encBytes p)).take m)
          (8 * J.length) = none := by
        rw [encBytes_def]
        exact extractPacket_take_none J p (calculateCRC p) m hp hJ hpb
          (calculateCRC_lt p) (by omega)
      rw [hext]
      rfl

/-- One decoder step on a strict prefix of the (junk ++ packet) stream is
silent: nothing is emitted and the buffer is left as it is. -/
theorem tryDecodePacket_take_silent (J p : List Nat) (m : Nat)
    (hp : p.length ≤ 32) (hJ : ∀ b ∈ J, b < 256) (hpb : ∀ b ∈ p, b < 256)
    (hsync : ∀ k, k < (J ++ encBytes p).length → k ≠ J.length →
      ¬ isHeaderAt (J ++ encBytes p) k)
    (hm : m < 8 * (J.length + (10 + p.length)))
    (htot : 8 * (J.length + (10 + p.length)) ≤ 1000) :
    tryDecodePacket ((createBitStream (J ++ encBytes p)).take m)
      = ([], (createBitStream (J ++ encBytes p)).take m) := by
  have hBlen : (J ++ encBytes p).length = J.length + (10 + p.length) := by
    rw [encBytes_def]; exact encShape_length J p _
  have hbuflen : ((createBitStream (J ++ encBytes p)).take m).length = m := by
    rw [List.length_take, length_createBitStream, hBlen]
    omega
  unfold tryDecodePacket
  rw [hbuflen, packetHeader_length]
  by_cases h80 : m < (8 + 2) * 8
  · rw [if_pos h80]
  · rw [if_neg h80]
    rw [findSync_take_none J p m hp hJ hpb hsync (by omega) hm]
    rw [if_neg (by omega)]

/-- Feeding any strict-prefix number of bits of a (junk ++ packet) stream
emits nothing and accumulates exactly those bits in the buffer. -/
theorem feed_take (J p : List Nat) (acc : List (List Nat))
    (hp : p.length ≤ 32) (hJ : ∀ b ∈ J, b < 256) (hpb : ∀ b ∈ p, b < 256)
    (hsync : ∀ k, k < (J ++ encBytes p).length → k ≠ J.length →
      ¬ isHeaderAt (J ++ encBytes p) k)
    (htot : 8 * (J.length + (10 + p.length)) ≤ 1000) :
    ∀ n, n < 8 * (J.length + (10 + p.length)) →
      feedBitsFrom (acc, []) ((createBitStream (J ++ encBytes p)).take n)
        = (acc, (createBitStream (J ++ encBytes p)).take n) := by
  have hBlen : (J ++ encBytes p).length = J.length + (10 + p.length) := by
    rw [encBytes_def]; exact encShape_length J p _
  have hbits : (createBitStream (J ++ encBytes p)).length
      = 8 * (J.length + (10 + p.length)) := by
    rw [length_createBitStream, hBlen]
  intro n
  induction n with
  | zero => intro _; simp [feedBitsFrom]
  | succ n ih =>
      intro hn1
      have hn : n < 8 * (J.length + (10 + p.length)) := by omega
      have hsome : (createBitStream (J ++ encBytes p))[n]?
          = some ((createBitStream (J ++ encBytes p)).get ⟨n, by omega⟩) := by
        rw [List.getElem?_eq_getElem (by omega)]
        rfl
      rw [List.take_succ, hsome]
      unfold feedBitsFrom
      rw [List.foldl_append]
      have hprev := ih hn
      unfold feedBitsFrom at hprev
      rw [hprev]
      show processBit (acc, (createBitStream (J ++ encBytes p)).take n) _ = _
      unfold processBit
      have hbuf : (createBitStream (J ++ encBytes p)).take n
            ++ [(createBitStream (J ++ encBytes p)).get ⟨n, by omega⟩]
          = (createBitStream (J ++ encBytes p)).take (n + 1) := by
        rw [List.take_succ, hsome]
        rfl
      rw [hbuf, tryDecodePacket_take_silent J p (n + 1) hp hJ hpb hsync (by omega) htot]
      simp

/-- Feeding the complete bit stream of (byte-aligned junk ++ one encoded
packet) to the decoder emits exactly that packet's payload and empties the
buffer, provided the sync header occurs at no byte offset other than the true
packet start and the stream fits under the 1000-bit buffer cap. -/
theorem feedSegment (J p : List Nat) (acc : List (List Nat))
    (hp : p.length ≤ 32) (hJ : ∀ b ∈ J, b < 256) (hpb : ∀ b ∈ p, b < 256)
    (hsync : ∀ k, k < (J ++ encBytes p).length → k ≠ J.length →
      ¬ isHeaderAt (J ++ encBytes p) k)
    (htot : 8 * (J.length + (10 + p.length)) ≤ 1000) :
    feedBitsFrom (acc, []) (createBitStream (J ++ encBytes p)) = (acc ++ [p], []) := by
  have hBlen : (J ++ encBytes p).length = J.length + (10 + p.length) := by
    rw [encBytes_def]; exact encShape_length J p _
  have hBbytes : ∀ b ∈ J ++ encBytes p, b < 256 := by
    rw [encBytes_def]; exact encShape_bytes_lt hp hJ hpb (calculateCRC_lt p)
  have hbits : (createBitStream (J ++ encBytes p)).length
      = 8 * (J.length + (10 + p.length)) := by
    rw [length_createBitStream, hBlen]
  set total := 8 * (J.length + (10 + p.length)) with htotal
  have htpos : 1 ≤ total := by omega
  have hfull : (createBitStream (J ++ encBytes p)).take total
      = createBitStream (J ++ encBytes p) := by
    rw [← hbits, List.take_length]
  have hsome : (createBitStream (J ++ encBytes p))[total - 1]?
      = some ((createBitStream (J ++ encBytes p)).get ⟨total - 1, by omega⟩) := by
    rw [List.getElem?_eq_getElem (by omega)]
    rfl
  have hsplit : createBitStream (J ++ encBytes p)
      = (createBitStream (J ++ encBytes p)).take (total - 1)
        ++ [(createBitStream (J ++ encBytes p)).get ⟨total - 1, by omega⟩] := by
    conv_lhs => rw [← hfull, show total = (total - 1) + 1 from by omega]
    rw [List.take_succ, hsome]
    rfl
  conv_lhs => rw [hsplit]
  unfold feedBitsFrom
  rw [List.foldl_append]
  have hprev := feed_take J p acc hp hJ hpb hsync htot (total - 1) (by omega)
  unfold feedBitsFrom at hprev
  rw [hprev]
  show processBit (acc, (createBitStream (J ++ encBytes p)).take (total - 1)) _ = _
  unfold processBit
  rw [← hsplit]
  have hdecode : tryDecodePacket (createBitStream (J ++ encBytes p))
      = ([p], []) := by
    unfold tryDecodePacket
    rw [hbits, packetHeader_length]
    rw [if_neg (by omega)]
    have hfind : findSync (createBitStream (J ++ encBytes p))
        = some (8 * J.length, p, 10 + p.length) := by
      unfold findSync
      rw [hbits, packetHeader_length]
      apply findSome?_range_first (K := J.length)
      · have h1 : J.length ≤ (total - 8 * 8) / 8 := by
          rw [Nat.le_div_iff_mul_le (by norm_num : 0 < (8 : Nat))]
          omega
        omega
      · intro k hk
        have hmh : matchHeader (createBitStream (J ++ encBytes p)) (8 * k) = false := by
          rw [← hfull]
          rcases Bool.eq_false_or_eq_true
              (matchHeader ((createBitStream (J ++ encBytes p)).take total) (8 * k)) with
            h | h
          swap
          · exact h
          · exfalso
            have hhead : isHeaderAt (J ++ encBytes p) k :=
              (matchHeader_stream_take hBbytes (by omega) (by omega)).mp h
            have hbound := isHeaderAt_bound hhead
            exact hsync k (by omega) (by omega) hhead
        rw [if_neg (by simp [hmh])]
      · have hmh : matchHeader (createBitStream (J ++ encBytes p)) (8 * J.length)
            = true := by
          rw [← hfull]
          refine (matchHeader_stream_take hBbytes (by omega) (by omega)).mpr ?_
          exact isHeaderAt_encBytes J p
        rw [if_pos hmh]
        have hext : extractPacket (createBitStream (J ++ encBytes p)) (8 * J.length)
            = some (p, 10 + p.length) := by
          rw [encBytes_def]
          rw [extractPacket_stream_eval J p (calculateCRC p) hp hJ hpb (calculateCRC_lt p)]
          rw [if_pos rfl]
        rw [hext]
        rfl
    rw [hfind]
    show ([p], (createBitStream (J ++ encBytes p)).drop (8 * J.length + (10 + p.length) * 8)) = _
    rw [show 8 * J.length + (10 + p.length) * 8 = total from by omega]
    rw [← hbits, List.drop_length]
  rw [hdecode]

/-! ## Single-bit corruption (checksum coverage) -/

/-- Flipping bit `r` inside one byte's LSB-first expansion XORs the byte
with `2^r`. -/
theorem byteToBits_set : ∀ b < 256, ∀ r < 8,
    (byteToBits b).set r (1 - ((b >>> r) &&& 1)) = byteToBits (b ^^^ (1 <<< r)) := by
  decide

/-- Bit `8*q + r` of a bit stream is bit `r` of byte `q`. -/
theorem getD_stream_bit (B : List Nat) :
    ∀ q r, q < B.length → r < 8 →
      (createBitStream B).getD (8 * q + r) 0 = ((B.getD q 0 >>> r) &&& 1) := by
  induction B with
  | nil => intro q r hq _; simp at hq
  | cons b rest ih =>
      intro q r hq hr
      match q with
      | 0 =>
          show (byteToBits b ++ createBitStream rest).getD (8 * 0 + r) 0 = _
          rw [show 8 * 0 + r = r from by omega]
          rw [List.getD_append _ _ _ _ (by rw [length_byteToBits]; omega)]
          unfold byteToBits
          rw [List.getD_eq_getElem?_getD, List.getElem?_map]
          rw [List.getElem?_range (by omega)]
          rfl
      | q + 1 =>
          show (byteToBits b ++ createBitStream rest).getD (8 * (q + 1) + r) 0 = _
          rw [List.getD_append_right _ _ _ _ (by rw [length_byteToBits]; omega)]
          rw [length_byteToBits]
          have harith : 8 * (q + 1) + r - 8 = 8 * q + r := by omega
          rw [harith, ih q r (by simpa using hq) hr]
          rfl

/-- Flipping bit `8*q + r` of a bit stream produces the bit stream of the
byte list with byte `q` XORed by `2^r`. -/
theorem flipBit_stream (B : List Nat) :
    ∀ q r, q < B.length → r < 8 → (∀ b ∈ B, b < 256) →
      flipBit (createBitStream B) (8 * q + r)
        = createBitStream (B.set q (B.getD q 0 ^^^ (1 <<< r))) := by
  induction B with
  | nil => intro q r hq _ _; simp at hq
  | cons b rest ih =>
      intro q r hq hr hB
      have hb : b < 256 := hB b (by simp)
      unfold flipBit
      rw [getD_stream_bit _ q r hq hr]
      match q with
      | 0 =>
          show (byteToBits b ++ createBitStream rest).set (8 * 0 + r)
              (1 - (((b :: rest).getD 0 0 >>> r) &&& 1)) = _
          rw [show 8 * 0 + r = r from by omega, List.set_append,
            if_pos (by rw [length_byteToBits]; omega)]
          rw [show (b :: rest).getD 0 0 = b from rfl]
          rw [byteToBits_set b hb r hr]
          rfl
      | q + 1 =>
          show (byteToBits b ++ createBitStream rest).set (8 * (q + 1) + r)
              (1 - (((b :: rest).getD (q + 1) 0 >>> r) &&& 1)) = _
          rw [List.set_append, if_neg (by rw [length_byteToBits]; omega),
            length_byteToBits]
          have harith : 8 * (q + 1) + r - 8 = 8 * q + r := by omega
          rw [harith]
          have hrest : ∀ x ∈ rest, x < 256 := fun x hx => hB x (by simp [hx])
          have hq' : q < rest.length := by simpa using hq
          have hih := ih q r hq' hr hrest
          unfold flipBit at hih
          rw [getD_stream_bit _ q r hq' hr] at hih
          rw [show (b :: rest).getD (q + 1) 0 = rest.getD q 0 from rfl, hih]
          rfl

/-- Pulling the accumulator out of an XOR fold. -/
theorem foldl_xor_acc (l : List Nat) :
    ∀ a, l.foldl (fun crc b => crc ^^^ b) a = a ^^^ l.foldl (fun crc b => crc ^^^ b) 0 := by
  induction l with
  | nil => intro a; simp
  | cons x t ih =>
      intro a
      simp only [List.foldl_cons]
      rw [ih (a ^^^ x), ih (0 ^^^ x)]
      rw [Nat.zero_xor, Nat.xor_assoc]

/-- XORing one element of a list by `m` XORs the fold by `m`. -/
theorem foldl_xor_set (l : List Nat) :
    ∀ i, i < l.length →
      ∀ m, (l.set i (l.getD i 0 ^^^ m)).foldl (fun crc b => crc ^^^ b) 0
        = l.foldl (fun crc b => crc ^^^ b) 0 ^^^ m := by
  induction l with
  | nil => intro i hi; simp at hi
  | cons x t ih =>
      intro i hi m
      match i with
      | 0 =>
          simp only [List.getD_cons_zero, List.set_cons_zero, List.foldl_cons]
          rw [foldl_xor_acc t (0 ^^^ (x ^^^ m)), foldl_xor_acc t (0 ^^^ x)]
          simp only [Nat.zero_xor]
          rw [Nat.xor_assoc x m, Nat.xor_comm m, ← Nat.xor_assoc x]
      | i + 1 =>
          simp only [List.getD_cons_succ, List.set_cons_succ, List.foldl_cons]
          rw [foldl_xor_acc (t.set i (t.getD i 0 ^^^ m)) (0 ^^^ x),
            foldl_xor_acc t (0 ^^^ x)]
          rw [ih i (by simpa using hi) m]
          simp only [Nat.zero_xor]
          rw [Nat.xor_assoc]

/-- The XOR fold of bytes stays below 256. -/
theorem foldl_xor_lt (l : List Nat) (hl : ∀ b ∈ l, b < 256) :
    l.foldl (fun crc b => crc ^^^ b) 0 < 256 := by
  induction l with
  | nil => simp
  | cons x t ih =>
      have hx : x < 256 := hl x (by simp)
      have ht : ∀ b ∈ t, b < 256 := fun b hb => hl b (by simp [hb])
      have h1 : t.foldl (fun crc b => crc ^^^ b) 0 < 256 := ih ht
      simp only [List.foldl_cons]
      rw [foldl_xor_acc t (0 ^^^ x), Nat.zero_xor]
      have h2 : x ^^^ t.foldl (fun crc b => crc ^^^ b) 0 < 2 ^ 8 :=
        Nat.xor_lt_two_pow (by norm_num; omega) (by norm_num; omega)
      norm_num at h2
      exact h2

/-- For byte lists the 0xFF mask in `calculateCRC` is the identity. -/
theorem calculateCRC_eq_foldl (l : List Nat) (hl : ∀ b ∈ l, b < 256) :
    calculateCRC l = l.foldl (fun crc b => crc ^^^ b) 0 := by
  unfold calculateCRC
  have h := foldl_xor_lt l hl
  have hmask := Nat.and_pow_two_sub_one_eq_mod (l.foldl (fun crc b => crc ^^^ b) 0) 8
  norm_num at hmask
  rw [hmask]
  omega

/-- XORing one payload byte by `m < 256` XORs the checksum by `m`. -/
theorem calculateCRC_set (l : List Nat) (i : Nat) (hi : i < l.length) (m : Nat)
    (hm : m < 256) (hl : ∀ b ∈ l, b < 256) :
    calculateCRC (l.set i (l.getD i 0 ^^^ m)) = calculateCRC l ^^^ m := by
  have hl' : ∀ b ∈ l.set i (l.getD i 0 ^^^ m), b < 256 := by
    intro b hb
    rcases List.mem_or_eq_of_mem_set hb with h | h
    · exact hl b h
    · subst h
      have hgd : l.getD i 0 = l.get ⟨i, hi⟩ := by
        rw [List.getD_eq_getElem?_getD, List.getElem?_eq_getElem hi]
        rfl
      have h1 : l.getD i 0 < 256 := by
        rw [hgd]
        exact hl _ (l.get_mem i hi)
      have h256 : (256 : Nat) = 2 ^ 8 := by norm_num
      have h2 : l.getD i 0 ^^^ m < 2 ^ 8 :=
        Nat.xor_lt_two_pow (h256 ▸ h1) (h256 ▸ hm)
      rw [← h256] at h2
      exact h2
  rw [calculateCRC_eq_foldl _ hl', calculateCRC_eq_foldl _ hl]
  exact foldl_xor_set l i hi m

/-- XOR by a nonzero value changes a number. -/
theorem xor_ne_self {a m : Nat} (hm : m ≠ 0) : a ^^^ m ≠ a := by
  intro h
  have h1 : a ^^^ (a ^^^ m) = a ^^^ a := by rw [h]
  rw [Nat.xor_cancel_left, Nat.xor_self] at h1
  exact hm h1

theorem encBytes_getD_payload (p : List Nat) (i : Nat) (hi : i < p.length) :
    (encBytes p).getD (9 + i) 0 = p.getD i 0 := by
  rw [encBytes_def]
  rw [List.getD_append _ _ _ _
    (by simp only [List.length_append, packetHeader_length, List.length_cons,
      List.length_nil]; omega)]
  rw [List.getD_append_right _ _ _ _
    (by simp only [List.length_append, packetHeader_length, List.length_cons,
      List.length_nil]; omega)]
  congr 1
  simp only [List.length_append, packetHeader_length, List.length_cons, List.length_nil]
  omega

theorem encBytes_getD_crc (p : List Nat) :
    (encBytes p).getD (9 + p.length) 0 = calculateCRC p := by
  rw [encBytes_def]
  rw [List.getD_append_right _ _ _ _
    (by simp only [List.length_append, packetHeader_length, List.length_cons,
      List.length_nil]; omega)]
  have h0 : 9 + p.length - (packetHeader ++ [p.length] ++ p).length = 0 := by
    simp only [List.length_append, packetHeader_length, List.length_cons,
      List.length_nil]
    omega
  rw [h0]
  rfl

theorem encBytes_set_payload (p : List Nat) (i : Nat) (hi : i < p.length) (v : Nat) :
    (encBytes p).set (9 + i) v
      = packetHeader ++ [p.length] ++ p.set i v ++ [calculateCRC p] := by
  rw [encBytes_def]
  rw [List.set_append, if_pos
    (by simp only [List.length_append, packetHeader_length, List.length_cons,
      List.length_nil]; omega)]
  rw [List.set_append, if_neg
    (by simp only [List.length_append, packetHeader_length, List.length_cons,
      List.length_nil]; omega)]
  have h0 : 9 + i - (packetHeader ++ [p.length]).length = i := by
    simp only [List.length_append, packetHeader_length, List.length_cons,
      List.length_nil]
    omega
  rw [h0]

theorem encBytes_set_crc (p : List Nat) (v : Nat) :
    (encBytes p).set (9 + p.length) v
      = packetHeader ++ [p.length] ++ p ++ [v] := by
  rw [encBytes_def]
  rw [List.set_append, if_neg
    (by simp only [List.length_append, packetHeader_length, List.length_cons,
      List.length_nil]; omega)]
  have h0 : 9 + p.length - (packetHeader ++ [p.length] ++ p).length = 0 := by
    simp only [List.length_append, packetHeader_length, List.length_cons,
      List.length_nil]
    omega
  rw [h0]
  rfl

theorem one_shiftLeft_lt_256 {r : Nat} (hr : r < 8) : 1 <<< r < 256 := by
  rw [Nat.one_shiftLeft]
  calc 2 ^ r ≤ 2 ^ 7 := Nat.pow_le_pow_right (by norm_num) (by omega)
    _ < 256 := by norm_num

theorem one_shiftLeft_ne_zero (r : Nat) : 1 <<< r ≠ 0 := by
  rw [Nat.one_shiftLeft]
  exact (Nat.pow_pos (by norm_num)).ne'

/-- C4: for every valid encoded frame, flipping any single bit of any one
payload byte or of the checksum byte (bit positions `72 ≤ idx < (10+L)·8` of
the frame's bit vector) makes `extractPacket` reject the frame: the XOR check
fails and no frame is returned for that candidate. -/
theorem C4_checksum_coverage (p : List Nat) (hp : p.length ≤ 32)
    (hpb : ∀ b ∈ p, b < 256) (idx : Nat)
    (h72 : 72 ≤ idx) (hlt : idx < (10 + p.length) * 8) :
    extractPacket (flipBit (createBitStream (encBytes p)) idx) 0 = none := by
  have hidx : idx = 8 * (idx / 8) + idx % 8 := by omega
  set q := idx / 8 with hqdef
  set r := idx % 8 with hrdef
  have hq9 : 9 ≤ q := by omega
  have hqlt : q < 10 + p.length := by omega
  have hr : r < 8 := by omega
  have hBlen : (encBytes p).length = 10 + p.length := by
    rw [encBytes_def]
    simp only [List.length_append, packetHeader_length, List.length_cons,
      List.length_nil]
    omega
  have hBbytes : ∀ b ∈ encBytes p, b < 256 := by
    rw [encBytes_def]
    have h := encShape_bytes_lt (J := []) (q := p) (c := calculateCRC p) hp
      (by simp) hpb (calculateCRC_lt p)
    simpa using h
  rw [hidx, flipBit_stream (encBytes p) q r (by omega) hr hBbytes]
  have hm256 : 1 <<< r < 256 := one_shiftLeft_lt_256 hr
  have hmne : 1 <<< r ≠ 0 := one_shiftLeft_ne_zero r
  rcases Nat.lt_or_ge q (9 + p.length) with hcase | hcase
  · -- a payload byte is corrupted: the recomputed checksum changes
    have hi : q - 9 < p.length := by omega
    have h9i : q = 9 + (q - 9) := by omega
    rw [h9i, encBytes_getD_payload p (q - 9) hi, encBytes_set_payload p (q - 9) hi]
    set p' : List Nat := p.set (q - 9) (p.getD (q - 9) 0 ^^^ 1 <<< r) with hp'
    have hplen : p'.length = p.length := by rw [hp']; exact List.length_set ..
    have hcrcp' : calculateCRC p' = calculateCRC p ^^^ 1 <<< r :=
      calculateCRC_set p (q - 9) hi (1 <<< r) hm256 hpb
    have hshape : packetHeader ++ [p.length] ++ p' ++ [calculateCRC p]
        = [] ++ (packetHeader ++ [p'.length] ++ p' ++ [calculateCRC p]) := by
      rw [hplen]
      rfl
    rw [hshape]
    have hp'b : ∀ b ∈ p', b < 256 := by
      intro b hb
      rcases List.mem_or_eq_of_mem_set hb with h | h
      · exact hpb b h
      · subst h
        have hgd : p.getD (q - 9) 0 < 256 := by
          have hgd2 : p.getD (q - 9) 0 = p.get ⟨q - 9, hi⟩ := by
            rw [List.getD_eq_getElem?_getD, List.getElem?_eq_getElem hi]
            rfl
          rw [hgd2]
          exact hpb _ (p.get_mem _ hi)
        have h256 : (256 : Nat) = 2 ^ 8 := by norm_num
        have h2 : p.getD (q - 9) 0 ^^^ 1 <<< r < 2 ^ 8 :=
          Nat.xor_lt_two_pow (h256 ▸ hgd) (h256 ▸ hm256)
        rw [← h256] at h2
        exact h2
    have heval := extractPacket_stream_eval [] p' (calculateCRC p)
      (by rw [hplen]; exact hp) (by simp) hp'b (calculateCRC_lt p)
    simp only [List.length_nil, Nat.mul_zero] at heval
    rw [heval]
    rw [if_neg]
    rw [hcrcp']
    intro h
    exact xor_ne_self hmne h.symm
  · -- the checksum byte itself is corrupted
    have hq' : q = 9 + p.length := by omega
    rw [hq', encBytes_getD_crc p, encBytes_set_crc p]
    have hshape : packetHeader ++ [p.length] ++ p ++ [calculateCRC p ^^^ 1 <<< r]
        = [] ++ (packetHeader ++ [p.length] ++ p ++ [calculateCRC p ^^^ 1 <<< r]) := by
      rfl
    rw [hshape]
    have hc' : calculateCRC p ^^^ 1 <<< r < 256 := by
      have h256 : (256 : Nat) = 2 ^ 8 := by norm_num
      have h2 : calculateCRC p ^^^ 1 <<< r < 2 ^ 8 :=
        Nat.xor_lt_two_pow (h256 ▸ calculateCRC_lt p) (h256 ▸ hm256)
      rw [← h256] at h2
      exact h2
    have heval := extractPacket_stream_eval [] p (calculateCRC p ^^^ 1 <<< r)
      hp (by simp) hpb hc'
    simp only [List.length_nil, Nat.mul_zero] at heval
    rw [heval]
    rw [if_neg]
    exact xor_ne_self hmne

theorem encBytes_length (p : List Nat) : (encBytes p).length = 10 + p.length := by
  rw [encBytes_def]
  simp only [List.length_append, packetHeader_length, List.length_cons,
    List.length_nil]
  omega

theorem feedBitsFrom_append (st : List (List Nat) × List Nat) (l1 l2 : List Nat) :
    feedBitsFrom st (l1 ++ l2) = feedBitsFrom (feedBitsFrom st l1) l2 :=
  List.foldl_append _ _ _ _

theorem tryDecodePacket_short {buf : List Nat} (h : buf.length < 80) :
    tryDecodePacket buf = ([], buf) := by
  unfold tryDecodePacket
  rw [packetHeader_length]
  rw [if_pos (by omega)]

/-- Feeding bits that leave the buffer under the 80-bit minimum emits
nothing. -/
theorem feed_short (bits : List Nat) : ∀ (acc : List (List Nat)) (buf : List Nat),
    buf.length + bits.length < 80 →
    feedBitsFrom (acc, buf) bits = (acc, buf ++ bits) := by
  induction bits with
  | nil => intro acc buf h; simp [feedBitsFrom]
  | cons b t ih =>
      intro acc buf h
      unfold feedBitsFrom
      rw [List.foldl_cons]
      have hstep : processBit (acc, buf) b = (acc, buf ++ [b]) := by
        unfold processBit
        rw [tryDecodePacket_short
          (by simp only [List.length_append, List.length_cons, List.length_nil] at h ⊢; omega)]
        simp
      rw [hstep]
      have hrest := ih acc (buf ++ [b])
        (by simp only [List.length_append, List.length_cons, List.length_nil] at h ⊢; omega)
      unfold feedBitsFrom at hrest
      rw [hrest, List.append_assoc]
      rfl

/-- `matchHeader` only reads 64 bits from the start offset. -/
theorem matchHeader_take {L : List Nat} {k m : Nat} (h : 8 * k + 64 ≤ m) :
    matchHeader (L.take m) (8 * k) = matchHeader L (8 * k) := by
  unfold matchHeader
  rw [Bool.eq_iff_iff, List.all_eq_true, List.all_eq_true]
  constructor
  · intro hall i hi
    have hh := hall i hi
    rw [List.mem_range, packetHeader_length] at hi
    rwa [readByte_take (by omega)] at hh
  · intro hall i hi
    have hh := hall i hi
    rw [List.mem_range, packetHeader_length] at hi
    rwa [readByte_take (by omega)]

/-- If every sync-header match within the first `n` bits announces a frame
that would extend beyond bit `n`, the sync search over those bits finds
nothing. -/
theorem findSync_silent (L : List Nat) (n : Nat) (hnL : n ≤ L.length)
    (h80 : 80 ≤ n)
    (hcond : ∀ k, k < n → 8 * k + 64 ≤ n → matchHeader L (8 * k) = true →
      (readByte L (8 * k + 8 * 8) ≤ 32 →
        8 * k + (8 + 1 + readByte L (8 * k + 8 * 8) + 1) * 8 > n)) :
    findSync (L.take n) = none := by
  have hbuflen : (L.take n).length = n := by rw [List.length_take]; omega
  unfold findSync
  rw [hbuflen, packetHeader_length, List.findSome?_eq_none]
  intro k hkmem
  rw [List.mem_range] at hkmem
  have h64 : 8 * k + 64 ≤ n := by
    have hk' : k ≤ (n - 8 * 8) / 8 := by omega
    have := (Nat.le_div_iff_mul_le (by norm_num : 0 < (8 : Nat))).mp hk'
    omega
  have hkn : k < n := by omega
  cases hmh : matchHeader (L.take n) (8 * k) with
  | false => rw [if_neg (by simp)]
  | true =>
      rw [if_pos (show (true : Bool) = true from rfl)]
      have hmL : matchHeader L (8 * k) = true := by
        rw [← matchHeader_take h64]
        exact hmh
      have hext : extractPacket (L.take n) (8 * k) = none := by
        simp only [extractPacket, packetHeader_length]
        rw [hbuflen]
        by_cases h1 : 8 * k + 8 * 8 + 8 > n
        · rw [if_pos h1]
        · rw [if_neg h1]
          rw [readByte_take (by omega)]
          by_cases h2 : readByte L (8 * k + 8 * 8) > maxPayloadLength
          · rw [if_pos h2]
          · rw [if_neg h2]
            have h3 := hcond k hkn h64 hmL
              (by simp only [maxPayloadLength] at h2; omega)
            rw [if_pos (by omega)]
      rw [hext]
      rfl

theorem tryDecodePacket_silent (L : List Nat) (n : Nat) (hnL : n ≤ L.length)
    (h1000 : n ≤ 1000)
    (hcond : ∀ k, k < n → 8 * k + 64 ≤ n → matchHeader L (8 * k) = true →
      (readByte L (8 * k + 8 * 8) ≤ 32 →
        8 * k + (8 + 1 + readByte L (8 * k + 8 * 8) + 1) * 8 > n)) :
    tryDecodePacket (L.take n) = ([], L.take n) := by
  have hbuflen : (L.take n).length = n := by rw [List.length_take]; omega
  unfold tryDecodePacket
  rw [hbuflen, packetHeader_length]
  by_cases h80 : n < (8 + 2) * 8
  · rw [if_pos h80]
  · rw [if_neg h80]
    rw [findSync_silent L n hnL (by omega) hcond]
    rw [if_neg (by omega)]

/-- Feeding the first `n` bits of `L` emits nothing while every sync-header
match inside them announces a frame reaching past bit `n`. -/
theorem feed_silent (L : List Nat) (acc : List (List Nat)) :
    ∀ n, n ≤ L.length → n ≤ 1000 →
    (∀ k, k < n → 8 * k + 64 ≤ n → matchHeader L (8 * k) = true →
      (readByte L (8 * k + 8 * 8) ≤ 32 →
        8 * k + (8 + 1 + readByte L (8 * k + 8 * 8) + 1) * 8 > n)) →
    feedBitsFrom (acc, []) (L.take n) = (acc, L.take n) := by
  intro n
  induction n with
  | zero => intro _ _ _; simp [feedBitsFrom]
  | succ n ih =>
      intro hn h1000 hcond
      have hcond' : ∀ k, k < n → 8 * k + 64 ≤ n → matchHeader L (8 * k) = true →
          (readByte L (8 * k + 8 * 8) ≤ 32 →
            8 * k + (8 + 1 + readByte L (8 * k + 8 * 8) + 1) * 8 > n) := by
        intro k hk h64 hm hle
        have := hcond k (by omega) (by omega) hm hle
        omega
      have hprev := ih (by omega) (by omega) hcond'
      have hsome : L[n]? = some (L.get ⟨n, by omega⟩) := by
        rw [List.getElem?_eq_getElem (by omega)]
        rfl
      rw [List.take_succ, hsome]
      unfold feedBitsFrom at hprev ⊢
      rw [List.foldl_append, hprev]
      show processBit (acc, L.take n) _ = _
      unfold processBit
      have hbuf : L.take n ++ [L.get ⟨n, by omega⟩] = L.take (n + 1) := by
        rw [List.take_succ, hsome]
        rfl
      rw [hbuf, tryDecodePacket_silent L (n + 1) hn h1000 hcond]
      simp

/-! ## The claims -/

/-- C1, as stated, fails on the code: take the payload `p0 = encBytes []`
(the 10-byte frame encoding the empty payload), which is well within the
32-byte bound.  Feeding `encode p0`'s bit vector to the decoder bit by bit
does emit exactly one frame, but its payload is `[]`, not `p0`: once the bits
of the embedded inner frame (byte offsets 9..18 of the outer frame) are all
buffered — 8 bits before the outer frame completes — the 8-bit-aligned sync
search locks onto the embedded header and consumes the inner frame,
destroying the outer one. -/
theorem C1_counterexample :
    (encBytes []).length ≤ 32
    ∧ encodePacket (encBytes []) = some (encBytes (encBytes []))
    ∧ (feedBits (createBitStream (encBytes (encBytes [])))).1 = [[]]
    ∧ ([[]] : List (List Nat)) ≠ [encBytes []] := by
  refine ⟨by decide, by decide, ?_, by decide⟩
  have hlen : (createBitStream (encBytes (encBytes []))).length = 160 := by
    rw [length_createBitStream]
    decide
  have hfeed : feedBits (createBitStream (encBytes (encBytes [])))
      = ([[]], (createBitStream (encBytes (encBytes []))).drop 152) := by
    have hsilent := feed_silent (createBitStream (encBytes (encBytes []))) [] 151
      (by omega) (by omega) (by decide)
    have hstep : tryDecodePacket
        ((createBitStream (encBytes (encBytes []))).take 152) = ([[]], []) := by
      decide
    have htake := List.take_concat_get (createBitStream (encBytes (encBytes []))) 151
      (by omega)
    rw [List.concat_eq_append] at htake
    rw [show (151 : Nat) + 1 = 152 from rfl] at htake
    have hsplit : createBitStream (encBytes (encBytes []))
        = (createBitStream (encBytes (encBytes []))).take 152
          ++ (createBitStream (encBytes (encBytes []))).drop 152 :=
      (List.take_append_drop _ _).symm
    unfold feedBits
    conv_lhs => rw [hsplit]
    rw [feedBitsFrom_append]
    have h152 : feedBitsFrom ([], [])
        ((createBitStream (encBytes (encBytes []))).take 152) = ([[]], []) := by
      rw [← htake]
      unfold feedBitsFrom
      rw [List.foldl_append]
      unfold feedBitsFrom at hsilent
      rw [hsilent]
      show processBit ([], (createBitStream (encBytes (encBytes []))).take 151) _ = _
      unfold processBit
      rw [htake, hstep]
      rfl
    rw [h152]
    rw [feed_short _ _ _ (by simp [List.length_drop, hlen])]
    rfl
  rw [hfeed]

/-- C1 (amended): frame round-trip.  For every byte payload `p` with
`|p| ≤ 32` whose encoded frame contains no byte-aligned occurrence of the
sync header other than at the frame start, encoding `p`
(`encodePacket` + `createBitStream`) and feeding the bit vector to the
decoder bit by bit yields exactly one frame whose payload equals `p` (and an
empty bit buffer). -/
theorem C1_frame_roundTrip (p : List Nat) (hp : p.length ≤ 32)
    (hpb : ∀ b ∈ p, b < 256)
    (hsync : ∀ k, k < (encBytes p).length → k ≠ 0 → ¬ isHeaderAt (encBytes p) k) :
    encodePacket p = some (encBytes p)
    ∧ feedBits (createBitStream (encBytes p)) = ([p], []) := by
  constructor
  · unfold encodePacket
    rw [if_neg (by simp only [maxPayloadLength]; omega)]
    rfl
  · have hsync' : ∀ k, k < (([] : List Nat) ++ encBytes p).length →
        k ≠ ([] : List Nat).length → ¬ isHeaderAt (([] : List Nat) ++ encBytes p) k := by
      intro k hk hk0
      simp only [List.nil_append] at hk ⊢
      exact hsync k hk (by simpa using hk0)
    have htot' : 8 * (([] : List Nat).length + (10 + p.length)) ≤ 1000 := by
      simp only [List.length_nil]
      omega
    have h := feedSegment [] p [] hp (by simp) hpb hsync' htot'
    simp only [List.nil_append] at h
    unfold feedBits
    simpa using h

theorem C1_frame_roundTrip_witness :
    encodePacket [5] = some (encBytes [5])
    ∧ feedBits (createBitStream (encBytes [5])) = ([[5]], []) :=
  C1_frame_roundTrip [5] (by decide) (by decide) (by decide)

/-- C2: the encoder refuses payloads longer than 32 bytes (`encodePacket`
throws, modelled as `none`); an accepted payload's frame is at most
`(10+32)·8 = 336` bits; and a receive candidate whose length byte exceeds 32
is rejected by `extractPacket` (which returns `none` without building any
payload, so the surrounding sync-search loop simply moves on). -/
theorem C2_length_bound :
    (∀ p : List Nat, p.length > 32 → encodePacket p = none)
    ∧ (∀ p pk : List Nat, encodePacket p = some pk →
        (createBitStream pk).length ≤ 336)
    ∧ (∀ (buf : List Nat) (s : Nat), 32 < readByte buf (s + 8 * 8) →
        extractPacket buf s = none) := by
  refine ⟨?_, ?_, ?_⟩
  · intro p hp
    unfold encodePacket
    rw [if_pos (by simp only [maxPayloadLength]; omega)]
  · intro p pk hpk
    unfold encodePacket at hpk
    by_cases h : p.length > maxPayloadLength
    · rw [if_pos h] at hpk
      exact absurd hpk (by simp)
    · rw [if_neg h] at hpk
      have hpk' : pk = encBytes p := by
        have := hpk
        injection this with h'
        exact h'.symm
      subst hpk'
      rw [length_createBitStream, encBytes_length]
      simp only [maxPayloadLength] at h
      omega
  · intro buf s h
    simp only [extractPacket, packetHeader_length]
    by_cases h1 : s + 8 * 8 + 8 > buf.length
    · rw [if_pos h1]
    · rw [if_neg h1]
      rw [if_pos (by simp only [maxPayloadLength]; omega)]

theorem C2_length_bound_witness :
    encodePacket (List.replicate 33 0) = none
    ∧ (createBitStream (encBytes [7])).length ≤ 336
    ∧ extractPacket (List.replicate 200 1) 0 = none :=
  ⟨C2_length_bound.1 (List.replicate 33 0) (by decide),
   C2_length_bound.2.1 [7] (encBytes [7]) (by decide),
   C2_length_bound.2.2 (List.replicate 200 1) 0 (by decide)⟩

/-- C3, as stated, fails on the code: junk of 1 bit (bounded) in front of two
valid frames leaves every frame misaligned with respect to the decoder's
8-bit-aligned sync scan, and since `tryDecodePacket` never advances the
buffer on a failed search (it only waits for more bits, script.js:1014), no
frame is ever emitted: the decoder emits `[]` instead of `[p1, p2]`. -/
theorem C3_counterexample :
    (feedBits (0 :: createBitStream (encBytes [] ++ encBytes []))).1 = []
    ∧ ([] : List (List Nat)) ≠ [[], []] := by
  refine ⟨?_, by decide⟩
  have hlen : (0 :: createBitStream (encBytes [] ++ encBytes [])).length = 161 := by
    rw [List.length_cons, length_createBitStream]
    decide
  have hfeed := feed_silent (0 :: createBitStream (encBytes [] ++ encBytes [])) [] 161
    (by omega) (by omega) (by decide)
  rw [show (161 : Nat) = (0 :: createBitStream (encBytes [] ++ encBytes [])).length
      from hlen.symm, List.take_length] at hfeed
  unfold feedBits
  rw [hfeed]

/-- C3 (amended): resynchronisation.  For byte-aligned junk (whole flushed
bytes) such that neither `junk₁ ++ encode p1` nor `junk₂ ++ encode p2`
contains a byte-aligned sync-header occurrence other than at the true frame
start, and with each junk-plus-frame segment at most 1000 bits (the buffer
cap), processing all bits of `junk₁ ++ encode p1 ++ junk₂ ++ encode p2`
through the decode state machine emits exactly the frames `p1` then `p2`. -/
theorem C3_resynchronisation (j1 j2 p1 p2 : List Nat)
    (hp1 : p1.length ≤ 32) (hp2 : p2.length ≤ 32)
    (hj1 : ∀ b ∈ j1, b < 256) (hj2 : ∀ b ∈ j2, b < 256)
    (hpb1 : ∀ b ∈ p1, b < 256) (hpb2 : ∀ b ∈ p2, b < 256)
    (hsync1 : ∀ k, k < (j1 ++ encBytes p1).length → k ≠ j1.length →
      ¬ isHeaderAt (j1 ++ encBytes p1) k)
    (hsync2 : ∀ k, k < (j2 ++ encBytes p2).length → k ≠ j2.length →
      ¬ isHeaderAt (j2 ++ encBytes p2) k)
    (htot1 : 8 * (j1.length + (10 + p1.length)) ≤ 1000)
    (htot2 : 8 * (j2.length + (10 + p2.length)) ≤ 1000) :
    feedBits (createBitStream ((j1 ++ encBytes p1) ++ (j2 ++ encBytes p2)))
      = ([p1, p2], []) := by
  rw [createBitStream_append]
  unfold feedBits feedBitsFrom
  rw [List.foldl_append]
  have h1 := feedSegment j1 p1 [] hp1 hj1 hpb1 hsync1 htot1
  unfold feedBitsFrom at h1
  rw [h1]
  have h2 := feedSegment j2 p2 [p1] hp2 hj2 hpb2 hsync2 htot2
  unfold feedBitsFrom at h2
  exact h2

theorem C3_resynchronisation_witness :
    feedBits (createBitStream (([255] ++ encBytes [1]) ++ ([17] ++ encBytes [2])))
      = ([[1], [2]], []) :=
  C3_resynchronisation [255] [17] [1] [2] (by decide) (by decide) (by decide)
    (by decide) (by decide) (by decide) (by decide) (by decide) (by decide)
    (by decide)

theorem C4_checksum_coverage_witness :
    extractPacket (flipBit (createBitStream (encBytes [5])) 80) 0 = none :=
  C4_checksum_coverage [5] (by decide) (by decide) 80 (by decide) (by decide)

/-! ## The obfuscation cipher -/

theorem hexPairVal_byteToHex : ∀ b < 256,
    hexPairVal (hexDigits.getD (b / 16) 48) (hexDigits.getD (b % 16) 48) = b := by
  decide

theorem hexPairs_flatten (l : List Nat) :
    hexPairs ((l.map byteToHex).flatten)
      = l.map (fun b => (hexDigits.getD (b / 16) 48, hexDigits.getD (b % 16) 48)) := by
  induction l with
  | nil => rfl
  | cons b t ih =>
      show hexPairs (byteToHex b ++ (t.map byteToHex).flatten) = _
      unfold byteToHex
      show hexPairs (hexDigits.getD (b / 16) 48 :: hexDigits.getD (b % 16) 48
        :: (t.map byteToHex).flatten) = _
      unfold hexPairs
      rw [ih]
      rfl

theorem getD_mem_of_ne_nil {k : List Nat} (hk : k ≠ []) (i : Nat) :
    k.getD (i % k.length) 0 ∈ k := by
  have hlen : 0 < k.length := List.length_pos.mpr hk
  have hi : i % k.length < k.length := Nat.mod_lt _ hlen
  have hgd : k.getD (i % k.length) 0 = k.get ⟨i % k.length, hi⟩ := by
    rw [List.getD_eq_getElem?_getD, List.getElem?_eq_getElem hi]
    rfl
  rw [hgd]
  exact k.get_mem _ hi

/-- The XOR-hex round trip, elementwise with a running key index. -/
theorem unhexCycle_xorCycle (k : List Nat) (hk : k ≠ []) (hkb : ∀ b ∈ k, b < 256) :
    ∀ (m : List Nat), (∀ b ∈ m, b < 256) → ∀ i,
      unhexCycle k i (hexPairs (((xorCycle k i m).map byteToHex).flatten)) = m := by
  intro m
  induction m with
  | nil => intro _ i; rfl
  | cons b t ih =>
      intro hmb i
      have hb : b < 256 := hmb b (by simp)
      have ht : ∀ x ∈ t, x < 256 := fun x hx => hmb x (by simp [hx])
      show unhexCycle k i (hexPairs (((
        (b ^^^ k.getD (i % k.length) 0) :: xorCycle k (i + 1) t).map byteToHex).flatten)) = _
      rw [hexPairs_flatten, List.map_cons]
      show (hexPairVal (hexDigits.getD ((b ^^^ k.getD (i % k.length) 0) / 16) 48)
          (hexDigits.getD ((b ^^^ k.getD (i % k.length) 0) % 16) 48)
          ^^^ k.getD (i % k.length) 0)
        :: unhexCycle k (i + 1)
          ((xorCycle k (i + 1) t).map
            (fun b => (hexDigits.getD (b / 16) 48, hexDigits.getD (b % 16) 48))) = b :: t
      have hkey : k.getD (i % k.length) 0 < 256 := hkb _ (getD_mem_of_ne_nil hk i)
      have he : b ^^^ k.getD (i % k.length) 0 < 256 := by
        have h256 : (256 : Nat) = 2 ^ 8 := by norm_num
        have h2 := Nat.xor_lt_two_pow (h256 ▸ hb) (h256 ▸ hkey)
        rw [← h256] at h2
        exact h2
      rw [hexPairVal_byteToHex _ he, Nat.xor_cancel_right]
      rw [← hexPairs_flatten, ih ht (i + 1)]

theorem xorCycle_length (k : List Nat) : ∀ i m, (xorCycle k i m).length = m.length := by
  intro i m
  induction m generalizing i with
  | nil => rfl
  | cons b t ih => simp [xorCycle, ih]

theorem encryptMessage_length (m k : List Nat) :
    (encryptMessage m k).length = 2 * m.length := by
  unfold encryptMessage
  rw [← xorCycle_length k 0 m]
  generalize xorCycle k 0 m = l
  induction l with
  | nil => rfl
  | cons b t ih =>
      show (byteToHex b ++ (t.map byteToHex).flatten).length = _
      rw [List.length_append, ih]
      simp [byteToHex]
      ring

/-- C5, as stated, fails on the code for the empty message: `encryptMessage`
of `""` is `""`, and `decryptMessage("")` calls `.map` on the `null` result
of `"".match(/.{2}/g)`, throwing a `TypeError` (modelled by `none`) instead
of returning the message. -/
theorem C5_counterexample :
    encryptMessage [] [107] = []
    ∧ decryptMessage (encryptMessage [] [107]) [107] = none
    ∧ decryptMessage (encryptMessage [] [107]) [107] ≠ some [] := by
  refine ⟨rfl, rfl, by decide⟩

/-- C5 (amended): for every non-empty message `m` (as UTF-8 bytes) and
non-empty key `k`, `decryptMessage (encryptMessage m k) k` recovers `m`; and
encrypting `"hi"` (bytes `0x68 0x69`) with key `"k"` (byte `0x6B`) yields the
wire string `"0302"` (ASCII bytes `48 51 48 50`). -/
theorem C5_obfuscation_roundTrip (m k : List Nat) (hm : m ≠ []) (hk : k ≠ [])
    (hmb : ∀ b ∈ m, b < 256) (hkb : ∀ b ∈ k, b < 256) :
    decryptMessage (encryptMessage m k) k = some m
    ∧ encryptMessage [104, 105] [107] = [48, 51, 48, 50] := by
  constructor
  · unfold decryptMessage
    rw [if_neg (by
      rw [encryptMessage_length]
      have : m.length ≠ 0 := fun h => hm (List.length_eq_zero.mp h)
      omega)]
    unfold encryptMessage
    rw [unhexCycle_xorCycle k hk hkb m hmb 0]
  · decide

theorem C5_obfuscation_roundTrip_witness :
    decryptMessage (encryptMessage [104, 105] [107]) [107] = some [104, 105]
    ∧ encryptMessage [104, 105] [107] = [48, 51, 48, 50] :=
  ⟨(C5_obfuscation_roundTrip [104, 105] [107] (by decide) (by decide) (by decide)
      (by decide)).1,
   (C5_obfuscation_roundTrip [104, 105] [107] (by decide) (by decide) (by decide)
      (by decide)).2⟩

/-! ## Session layer claims -/

theorem addMessage_getLast? (st : ChatState) (msg : ChatHistoryEntry) :
    (addMessage st msg).messageHistory.getLast? = some msg := by
  simp only [addMessage]
  by_cases h : (st.messageHistory ++ [msg]).length > maxHistorySize
  · rw [if_pos h]
    rw [List.drop_append_eq_append_drop]
    rw [List.getLast?_append]
    have hlen : (st.messageHistory ++ [msg]).length = st.messageHistory.length + 1 := by
      simp
    have hdrop : ((st.messageHistory ++ [msg]).length - maxHistorySize)
        - st.messageHistory.length = 0 := by
      simp only [maxHistorySize] at h ⊢
      omega
    rw [hdrop]
    rfl
  · rw [if_neg h]
    exact List.getLast?_concat _

theorem addMessage_length (st : ChatState) (msg : ChatHistoryEntry) :
    (addMessage st msg).messageHistory.length
      = min (st.messageHistory.length + 1) maxHistorySize := by
  simp only [addMessage]
  by_cases h : (st.messageHistory ++ [msg]).length > maxHistorySize
  · rw [if_pos h]
    rw [List.length_drop]
    simp only [List.length_append, List.length_cons, List.length_nil,
      maxHistorySize] at h ⊢
    omega
  · rw [if_neg h]
    simp only [List.length_append, List.length_cons, List.length_nil,
      maxHistorySize] at h ⊢
    omega

/-- C6: with a room active, `togglePrivacyMode` flips the room's `isPrivate`
flag and the manager's `isPrivateMode`.  Entering private mode it installs
the freshly generated (non-empty) key, transmits exactly one `private_key`
datagram, and appends/delivers a local system message; afterwards every
outgoing chat datagram produced by `sendMessage` for a (non-empty, as the UI
enforces at script.js:309) message has `isEncrypted = true` and a wire
`content` different from the cleartext.  Toggling back to public clears the
key, and outgoing chat datagrams have `isEncrypted = false` with cleartext
`content`. -/
theorem C6_privacy_toggle (st : ChatState) (room : Room)
    (hroom : st.currentRoom = some room) (freshKey sysId : List Nat) (now : Nat)
    (hkey : freshKey ≠ []) :
    ((togglePrivacyMode st freshKey sysId now).state.isPrivateMode
        = !st.isPrivateMode)
    ∧ (∃ room', (togglePrivacyMode st freshKey sysId now).state.currentRoom
        = some room' ∧ room'.isPrivate = !st.isPrivateMode)
    ∧ (st.isPrivateMode = false →
        (togglePrivacyMode st freshKey sysId now).state.encryptionKey
            = some freshKey
        ∧ (togglePrivacyMode st freshKey sysId now).transmitted
            = [Datagram.privateKey room.id freshKey st.myUserId now]
        ∧ (togglePrivacyMode st freshKey sysId now).state.messageHistory.getLast?
            = some (systemMessage sysTextToPrivate sysId now)
        ∧ (togglePrivacyMode st freshKey sysId now).delivered
            = [systemMessage sysTextToPrivate sysId now]
        ∧ (∀ (m msgId : List Nat) (now' : Nat), m ≠ [] →
            ∃ res, sendMessage (togglePrivacyMode st freshKey sysId now).state
                m msgId now' = some res
              ∧ res.wire.isEncrypted = true
              ∧ res.wire.content ≠ m))
    ∧ (st.isPrivateMode = true →
        (togglePrivacyMode st freshKey sysId now).state.encryptionKey = none
        ∧ (∀ (m msgId : List Nat) (now' : Nat),
            ∃ res, sendMessage (togglePrivacyMode st freshKey sysId now).state
                m msgId now' = some res
              ∧ res.wire.isEncrypted = false
              ∧ res.wire.content = m)) := by
  cases hpriv : st.isPrivateMode with
  | true =>
      simp only [togglePrivacyMode, hroom, hpriv, Bool.not_true, if_neg,
        Bool.false_eq_true, not_false_eq_true, if_false, addSystemMessage]
      refine ⟨rfl, ⟨_, rfl, rfl⟩, by simp, ?_⟩
      intro _
      refine ⟨rfl, ?_⟩
      intro m msgId now'
      simp only [sendMessage, addMessage, keyTruthy, Bool.false_and,
        Bool.and_self, if_neg]
      exact ⟨_, rfl, rfl, rfl⟩
  | false =>
      simp only [togglePrivacyMode, hroom, hpriv, Bool.not_false, if_pos,
        addSystemMessage, keyTruthy]
      refine ⟨rfl, ⟨_, rfl, rfl⟩, ?_, by simp⟩
      intro _
      have htx : (!List.isEmpty freshKey) = true := by
        cases freshKey with
        | nil => exact absurd rfl hkey
        | cons a t => rfl
      refine ⟨?_, ?_, ?_, ?_, ?_⟩
      · rfl
      · rw [if_pos htx]
      · exact addMessage_getLast? _ _
      · trivial
      · intro m msgId now' hm
        refine ⟨_, rfl, rfl, ?_⟩
        intro hEq
        have hEq' : (if (!freshKey.isEmpty) = true then
            encryptMessage m freshKey else m) = m := hEq
        rw [htx] at hEq'
        simp only [if_pos] at hEq'
        have hlen := congrArg List.length hEq'
        rw [encryptMessage_length] at hlen
        have hm0 : m.length ≠ 0 := fun h => hm (List.length_eq_zero.mp h)
        omega

theorem C6_privacy_toggle_witness :
    ((togglePrivacyMode ⟨some ⟨[114], [110], false, [[109]], [109], 0, none⟩,
        [([114], ⟨[114], [110], false, [[109]], [109], 0, none⟩)], false, none,
        [], [], [109], [77]⟩ [107] [1] 5).state.isPrivateMode = true)
    ∧ ((togglePrivacyMode ⟨some ⟨[114], [110], false, [[109]], [109], 0, none⟩,
        [([114], ⟨[114], [110], false, [[109]], [109], 0, none⟩)], false, none,
        [], [], [109], [77]⟩ [107] [1] 5).transmitted
        = [Datagram.privateKey [114] [107] [109] 5]) := by
  have h := C6_privacy_toggle
    ⟨some ⟨[114], [110], false, [[109]], [109], 0, none⟩,
     [([114], ⟨[114], [110], false, [[109]], [109], 0, none⟩)], false, none,
     [], [], [109], [77]⟩
    ⟨[114], [110], false, [[109]], [109], 0, none⟩ rfl [107] [1] 5 (by decide)
  exact ⟨h.1, (h.2.2.1 rfl).2.1⟩

/-- C7: self-loopback suppression.  A heartbeat or discovery datagram whose
`userId` equals the local device's `myUserId` leaves the discovered-users
table unchanged and fires no callback; a chat datagram whose `fromUserId`
equals the local `myUserId` is dropped: the state (including the message
history) is unchanged and nothing is delivered to the UI. -/
theorem C7_self_loopback :
    (∀ (st : DiscoveryState) (d : HeartbeatData) (now : Nat),
        d.userId = st.myUserId → handleHeartbeat st d now = (st, []))
    ∧ (∀ (st : DiscoveryState) (d : HeartbeatData) (now : Nat),
        handleDiscovery st d now = handleHeartbeat st d now)
    ∧ (∀ (st : ChatState) (d : ChatData),
        d.fromUserId = st.myUserId → handleChatMessage st d = (st, [])) := by
  refine ⟨?_, fun st d now => rfl, ?_⟩
  · intro st d now h
    unfold handleHeartbeat
    rw [if_pos (by simp [h])]
  · intro st d h
    rcases hroom : st.currentRoom with _ | room
    · simp only [handleChatMessage, hroom]
    · simp only [handleChatMessage, hroom]
      by_cases hr : d.roomId = room.id
      · rw [if_neg (by simp [hr]), if_pos (by simp [h])]
      · rw [if_pos (by simp [hr])]

theorem C7_self_loopback_witness :
    handleHeartbeat ⟨[], [109]⟩ ⟨[109], [85], 3⟩ 5 = (⟨[], [109]⟩, [])
    ∧ handleDiscovery ⟨[], [109]⟩ ⟨[109], [85], 3⟩ 5
        = handleHeartbeat ⟨[], [109]⟩ ⟨[109], [85], 3⟩ 5
    ∧ handleChatMessage ⟨none, [], false, none, [], [], [109], []⟩
        ⟨[42], [114], [109], [85], [104], false, 0⟩
        = (⟨none, [], false, none, [], [], [109], []⟩, []) :=
  ⟨C7_self_loopback.1 _ _ 5 rfl, C7_self_loopback.2.1 _ _ 5,
   C7_self_loopback.2.2 _ _ rfl⟩

/-- C8, as stated, fails on the code: `handleChatMessage` performs no
duplicate-`messageId` check at all (script.js:1570-1606).  Receiving the
identical chat datagram twice — same `messageId` `[42]`, same timestamp, so
certainly within any 60-second window — adds two entries to the message
history, and the second copy is delivered to the UI again instead of being
dropped. -/
theorem C8_counterexample :
    ((handleChatMessage
        (handleChatMessage
          ⟨some ⟨[114], [110], false, [[109]], [109], 0, none⟩,
           [([114], ⟨[114], [110], false, [[109]], [109], 0, none⟩)],
           false, none, [], [], [109], [77]⟩
          ⟨[42], [114], [117], [85], [104], false, 1000⟩).1
        ⟨[42], [114], [117], [85], [104], false, 1000⟩).1.messageHistory.length = 2)
    ∧ ((handleChatMessage
        (handleChatMessage
          ⟨some ⟨[114], [110], false, [[109]], [109], 0, none⟩,
           [([114], ⟨[114], [110], false, [[109]], [109], 0, none⟩)],
           false, none, [], [], [109], [77]⟩
          ⟨[42], [114], [117], [85], [104], false, 1000⟩).1
        ⟨[42], [114], [117], [85], [104], false, 1000⟩).2.length = 1) := by
  exact ⟨rfl, rfl⟩

/-- C8 (amended): no duplicate suppression exists.  Every chat datagram for
the current room from another user — regardless of any previously received
`messageId` and of timestamps — is added to the history (which grows by one,
up to the 100-entry cap) and delivered to the UI exactly once. -/
theorem C8_no_duplicate_suppression (st : ChatState) (room : Room) (d : ChatData)
    (hroom : st.currentRoom = some room) (hr : d.roomId = room.id)
    (hf : d.fromUserId ≠ st.myUserId) :
    (handleChatMessage st d).2.length = 1
    ∧ (handleChatMessage st d).1.messageHistory.length
        = min (st.messageHistory.length + 1) maxHistorySize := by
  simp only [handleChatMessage, hroom]
  rw [if_neg (by simp [hr]), if_neg (by simp [hf])]
  exact ⟨rfl, addMessage_length _ _⟩

theorem C8_no_duplicate_suppression_witness :
    (handleChatMessage
      ⟨some ⟨[114], [110], false, [[109]], [109], 0, none⟩,
       [([114], ⟨[114], [110], false, [[109]], [109], 0, none⟩)],
       false, none, [], [], [109], [77]⟩
      ⟨[42], [114], [117], [85], [104], false, 1000⟩).2.length = 1
    ∧ (handleChatMessage
      ⟨some ⟨[114], [110], false, [[109]], [109], 0, none⟩,
       [([114], ⟨[114], [110], false, [[109]], [109], 0, none⟩)],
       false, none, [], [], [109], [77]⟩
      ⟨[42], [114], [117], [85], [104], false, 1000⟩).1.messageHistory.length
      = min (0 + 1) maxHistorySize :=
  C8_no_duplicate_suppression _ _ _ rfl rfl (by decide)

/-- C9, as stated, fails on the code at the session layer: a peer unseen for
more than 30 seconds is *not* removed from `connectedUsers` —
`cleanupOfflineUsers` only sets its `isOnline` flag to `false` and keeps the
entry (script.js:1814-1817), so it still appears in `getConnectedUsers()`. -/
theorem C9_counterexample :
    (cleanupOfflineUsers ⟨none, [], false, none, [],
        [([117], ⟨[117], [85], 0, true⟩)], [109], []⟩ 40000).1.connectedUsers
      = [([117], ⟨[117], [85], 0, false⟩)]
    ∧ getConnectedUsers (cleanupOfflineUsers ⟨none, [], false, none, [],
        [([117], ⟨[117], [85], 0, true⟩)], [109], []⟩ 40000).1
      ≠ [] := by
  exact ⟨rfl, by decide⟩

/-- C9 (amended): peer expiry.  Discovery layer: a peer all of whose table
entries are older than 10 seconds is removed by the next
`cleanupExpiredUsers` sweep, so it no longer appears in the table (hence not
in the snapshot).  Session layer: a peer unseen for more than 30 seconds is
marked offline (`isOnline := false`) by `cleanupOfflineUsers` and reported
via `onUserLeft`, but its entry remains in the `connectedUsers` map. -/
theorem C9_peer_expiry :
    (∀ (st : DiscoveryState) (now : Nat) (id : List Nat),
        (∀ u, (id, u) ∈ st.discoveredUsers → now - u.lastSeen > 10000) →
        ∀ u, (id, u) ∉ (cleanupExpiredUsers st now).discoveredUsers)
    ∧ (∀ (st : ChatState) (now : Nat) (id : List Nat) (u : ConnectedUser),
        (id, u) ∈ st.connectedUsers → now - u.lastSeen > 30000 →
        (id, { u with isOnline := false })
          ∈ (cleanupOfflineUsers st now).1.connectedUsers
        ∧ (id, { u with isOnline := false }) ∈ (cleanupOfflineUsers st now).2) := by
  constructor
  · intro st now id hstale u hmem
    unfold cleanupExpiredUsers at hmem
    have hsplit := List.mem_filter.mp hmem
    have h1 := hstale u hsplit.1
    have h2 := hsplit.2
    simp at h2
    omega
  · intro st now id u hmem hstale
    constructor
    · simp only [cleanupOfflineUsers]
      refine List.mem_map.mpr ⟨(id, u), hmem, ?_⟩
      show (if now - u.lastSeen > 30000 then (id, { u with isOnline := false })
        else (id, u)) = (id, { u with isOnline := false })
      rw [if_pos hstale]
    · simp only [cleanupOfflineUsers]
      refine List.mem_filterMap.mpr ⟨(id, u), hmem, ?_⟩
      show (if now - u.lastSeen > 30000 then some (id, { u with isOnline := false })
        else none) = some (id, { u with isOnline := false })
      rw [if_pos hstale]

theorem C9_peer_expiry_witness :
    ([117], (⟨[117], [85], 3, 100⟩ : DiscoveredUser))
      ∉ (cleanupExpiredUsers ⟨[([117], ⟨[117], [85], 3, 100⟩)], [109]⟩
          20000).discoveredUsers
    ∧ (([117], (⟨[117], [85], 0, false⟩ : ConnectedUser))
        ∈ (cleanupOfflineUsers ⟨none, [], false, none, [],
            [([117], ⟨[117], [85], 0, true⟩)], [109], []⟩ 40000).1.connectedUsers) := by
  constructor
  · refine C9_peer_expiry.1 _ 20000 [117] ?_ _
    intro u hu
    have hu' : u = ⟨[117], [85], 3, 100⟩ := by simpa using hu
    subst hu'
    decide
  · exact (C9_peer_expiry.2 _ 40000 [117] ⟨[117], [85], 0, true⟩
      (by decide) (by decide)).1

/-- C10: calling `togglePrivacyMode` with no active room returns `false` and
is a complete no-op: the state (so `isPrivateMode`, `encryptionKey`, the
rooms map, and the message history) is unchanged, no datagram is transmitted
and no system message is posted or delivered. -/
theorem C10_toggle_no_room (st : ChatState) (freshKey sysId : List Nat)
    (now : Nat) (h : st.currentRoom = none) :
    togglePrivacyMode st freshKey sysId now
      = { result := false, state := st, transmitted := [], delivered := [] } := by
  simp only [togglePrivacyMode, h]

theorem C10_toggle_no_room_witness :
    togglePrivacyMode ⟨none, [], false, none, [], [], [109], []⟩ [107] [1] 5
      = { result := false, state := ⟨none, [], false, none, [], [], [109], []⟩,
          transmitted := [], delivered := [] } :=
  C10_toggle_no_room _ [107] [1] 5 rfl

end ChaosChat
